import Mathlib

/-!
Verification of the Galactic Energy Exchange server against its
natural-language specification.

The development shallowly embeds the relevant JavaScript modules:

* `orders.js`  — the v2 continuous-limit-order-book matching engine
  (`placeOrderV2`, `modifyOrderV2`, `cancelOrderV2`, collateral helpers,
  the legacy `findAndFillOrder`);
* `trades.js`  — the trade ledger (`recordTrade`, balances, snapshot/restore);
  `recordTrade` follows the revision that stores the `isV2` flag on the trade;
* the server module — the `POST /v2/bulk-operations` handler and the legacy
  `POST /trades` (take) handler;
* `galacticbuf.js` — the two-version binary wire codec
  (`encodeMessage` / `decodeMessage`).

Pure-value conventions used throughout:

* The process-wide mutable arrays and maps become an explicit `MarketState`
  value that every operation takes and returns.
* `Date.now()` becomes an explicit `now : Int` parameter.
* Randomly generated hex identifiers become `Nat` counters (`nextOrderId`,
  `nextTradeId`); the source only ever compares identifiers for equality.
* JavaScript numbers that the source validates with `Number.isInteger` are
  modelled as `Int` directly.
* `%` on nonnegative epoch-millisecond values coincides with `Int.emod`;
  delivery timestamps are nonnegative in every scenario of interest.
-/

namespace GalacticExchange

/-- Order side; the source stores the strings `"BUY"` / `"SELL"`. -/
inductive Side where
  | BUY
  | SELL
deriving DecidableEq, Repr

/-- The opposite side, `side === 'BUY' ? 'SELL' : 'BUY'` in the source. -/
def Side.opposite : Side → Side
  | .BUY => .SELL
  | .SELL => .BUY

/-- Order status strings of the source. -/
inductive OrderStatus where
  | ACTIVE
  | FILLED
  | CANCELLED
deriving DecidableEq, Repr

/-- An order record as kept in the global `orders` array of orders.js. -/
structure Order where
  orderId : Nat
  user : String
  side : Side
  price : Int
  quantity : Int
  originalQuantity : Int
  deliveryStart : Int
  deliveryEnd : Int
  active : Bool
  status : OrderStatus
  createdAt : Int
  isV2 : Bool
deriving DecidableEq, Repr

/-- A trade record as kept in the global `trades` array of trades.js (the
revision that stores `isV2: !!isV2`).  The duplicated
`buyerUsername`/`sellerUsername` fields always equal `buyerId`/`sellerId`
at every call site and are dropped. -/
structure Trade where
  tradeId : Nat
  buyerId : String
  sellerId : String
  price : Int
  quantity : Int
  timestamp : Int
  delivery_start : Int
  delivery_end : Int
  isV2 : Bool
deriving DecidableEq, Repr

/-- The mutable module state of orders.js and trades.js, made explicit:
the `orders` array, the `trades` array, the `balances` map (as an
insertion-ordered association list, like a JavaScript `Map`), and the
fresh-identifier counters standing in for random hex identifiers. -/
structure MarketState where
  orders : List Order
  trades : List Trade
  balances : List (String × Int)
  nextOrderId : Nat
  nextTradeId : Nat
deriving DecidableEq, Repr

/-- `balances.get(u) || 0` from trades.js. -/
def mapGet (m : List (String × Int)) (k : String) : Int :=
  match m.find? (fun e => e.1 == k) with
  | some e => e.2
  | none => 0

/-- `balances.set(u, v)`: a JavaScript `Map.set` updates an existing key in
place (keeping its insertion position) and appends a new key at the end. -/
def mapSet (m : List (String × Int)) (k : String) (v : Int) : List (String × Int) :=
  match m with
  | [] => [(k, v)]
  | e :: rest => if e.1 = k then (k, v) :: rest else e :: mapSet rest k v

def ONE_HOUR_MS : Int := 3600000

def ONE_DAY_MS : Int := 86400000

/-- `validateOrderFields` from orders.js; `none` means valid.  The
`Number.isInteger` checks hold by typing. -/
def validateOrderFields (price quantity ds de : Int) : Option String :=
  if quantity ≤ 0 then some "Quantity must be a positive integer"
  else if ds % ONE_HOUR_MS ≠ 0 ∨ de % ONE_HOUR_MS ≠ 0 then
    some "Delivery times must be aligned to 1-hour boundaries"
  else if de ≤ ds then some "delivery_end must be greater than delivery_start"
  else if de - ds ≠ ONE_HOUR_MS then some "Delivery period must be exactly 1 hour"
  else
    -- the price is only checked to be an integer, which holds by typing
    let _ := price
    none

/-- Open time of a contract: midnight UTC, 15 days before delivery starts.
The source computes it with `setUTCDate(getUTCDate() - 15)` followed by
`setUTCHours(0,0,0,0)`, which on UTC epoch milliseconds equals flooring to
the day boundary and subtracting 15 whole days. -/
def openTimeOf (ds : Int) : Int := ds - ds % ONE_DAY_MS - 15 * ONE_DAY_MS

/-- Close time of a contract: 1 minute before delivery starts. -/
def closeTimeOf (ds : Int) : Int := ds - 60000

/-- `checkTradingWindow` from orders.js; `none` means tradeable,
`some (status, message)` the rejection. -/
def checkTradingWindow (now ds : Int) : Option (Nat × String) :=
  if now < openTimeOf ds then some (425, "Contract is not yet tradeable")
  else if closeTimeOf ds < now then some (451, "Contract is not tradeable anymore")
  else none

/-- One iteration of the exposure loop in `computePotentialBalance`
(orders.js).  The source branches on `value > 0`, but both branches perform
the same update; the branch is kept to mirror the source. -/
def exposureStep (username : String) (pot : Int) (o : Order) : Int :=
  if !o.isV2 ∨ !o.active ∨ o.quantity ≤ 0 then pot
  else if o.user ≠ username then pot
  else
    let value := o.price * o.quantity
    if 0 < value then
      if o.side = .BUY then pot - value else pot + value
    else
      if o.side = .BUY then pot - value else pot + value

/-- `computePotentialBalance` from orders.js: the realized balance plus the
signed exposure of every active v2 order of the user. -/
def computePotentialBalance (s : MarketState) (username : String) : Int :=
  s.orders.foldl (exposureStep username) (mapGet s.balances username)

/-- `violatesCollateral` from orders.js; `col` models
`getCollateral` from auth.js (`none` = unlimited). -/
def violatesCollateral (col : String → Option Int) (s : MarketState)
    (username : String) : Bool :=
  match col username with
  | none => false
  | some c => decide (computePotentialBalance s username < -c)

/-- The order in which the matching engine walks the opposite side:
the sort comparator `a.price - b.price || a.createdAt - b.createdAt`
(ascending prices) for a BUY taker, and
`b.price - a.price || a.createdAt - b.createdAt` (descending prices) for a
SELL taker.  `candLE a b` states that the comparator returns ≤ 0 on (a, b). -/
def candLE (side : Side) (a b : Order) : Prop :=
  match side with
  | .BUY => a.price < b.price ∨ (a.price = b.price ∧ a.createdAt ≤ b.createdAt)
  | .SELL => b.price < a.price ∨ (a.price = b.price ∧ a.createdAt ≤ b.createdAt)

/-- Strict version of `candLE`: the comparator returns < 0 on (a, b). -/
def candLT (side : Side) (a b : Order) : Prop :=
  match side with
  | .BUY => a.price < b.price ∨ (a.price = b.price ∧ a.createdAt < b.createdAt)
  | .SELL => b.price < a.price ∨ (a.price = b.price ∧ a.createdAt < b.createdAt)

instance (side : Side) : DecidableRel (candLE side) := fun a b => by
  cases side <;> dsimp [candLE] <;> infer_instance

instance (side : Side) : DecidableRel (candLT side) := fun a b => by
  cases side <;> dsimp [candLT] <;> infer_instance

instance (side : Side) : IsTotal Order (candLE side) where
  total a b := by
    cases side <;> dsimp [candLE] <;> rcases lt_trichotomy a.price b.price with h | h | h <;>
      rcases le_total a.createdAt b.createdAt with h' | h' <;> tauto

instance (side : Side) : IsTrans Order (candLE side) where
  trans a b c hab hbc := by
    cases side <;> dsimp [candLE] at * <;>
      rcases hab with h | ⟨h1, h2⟩ <;> rcases hbc with h' | ⟨h1', h2'⟩ <;>
        first
          | exact Or.inl (lt_trans h h')
          | (exact Or.inl (by omega))
          | (exact Or.inr (by constructor <;> omega))

/-- `candidates.sort(comparator)`: JavaScript `Array.prototype.sort` is a
stable sort, which the stable `List.insertionSort` models exactly. -/
def sortCandidates (side : Side) (l : List Order) : List Order :=
  l.insertionSort (candLE side)

/-- The candidate filter of the matching paths in orders.js: an active v2
order of the opposite side, same contract, with positive remaining
quantity. -/
def isCandidate (side : Side) (ds de : Int) (o : Order) : Bool :=
  o.isV2 && o.active && (o.side == side.opposite) &&
    (o.deliveryStart == ds) && (o.deliveryEnd == de) && decide (0 < o.quantity)

/-- The self-match simulation loop of `placeOrderV2`: walk the sorted
candidates, stopping when the simulated remaining is exhausted or the
incoming price stops crossing; report `true` on reaching an own order. -/
def selfMatchScan (side : Side) (price : Int) (username : String) :
    Int → List Order → Bool
  | _, [] => false
  | simRemaining, rest :: tl =>
    if simRemaining ≤ 0 then false
    else if side = .BUY ∧ price < rest.price then false
    else if side = .SELL ∧ rest.price < price then false
    else if rest.user = username then true
    else selfMatchScan side price username
      (simRemaining - min simRemaining rest.quantity) tl

/-- The execution loop shared by `placeOrderV2` and `modifyOrderV2`:
returns the list of (resting order, traded quantity) fills, in consumption
order, together with the remaining incoming quantity. -/
def matchLoop (side : Side) (price : Int) :
    Int → List Order → List (Order × Int) × Int
  | remaining, [] => ([], remaining)
  | remaining, rest :: tl =>
    if remaining ≤ 0 then ([], remaining)
    else if side = .BUY ∧ price < rest.price then ([], remaining)
    else if side = .SELL ∧ rest.price < price then ([], remaining)
    else
      let tq := min remaining rest.quantity
      if tq ≤ 0 then matchLoop side price remaining tl
      else
        let res := matchLoop side price (remaining - tq) tl
        ((rest, tq) :: res.1, res.2)

/-- `recordTrade` from trades.js (the revision storing `isV2`): assigns a
fresh identifier, appends the trade, and applies the balance deltas
(`applyTradeToBalances`).  Every call site passes a numeric timestamp, so
the `Date.now()` fallback is dead code. -/
def recordTrade (s : MarketState) (buyerId sellerId : String)
    (price quantity ds de timestamp : Int) (isV2 : Bool) :
    MarketState × Trade :=
  let t : Trade :=
    { tradeId := s.nextTradeId
      buyerId := buyerId
      sellerId := sellerId
      price := price
      quantity := quantity
      timestamp := timestamp
      delivery_start := ds
      delivery_end := de
      isV2 := isV2 }
  let amount := price * quantity
  let b1 := mapSet s.balances buyerId (mapGet s.balances buyerId - amount)
  let b2 := mapSet b1 sellerId (mapGet b1 sellerId + amount)
  ({ s with
      trades := s.trades ++ [t]
      balances := b2
      nextTradeId := s.nextTradeId + 1 }, t)

/-- The trade-recording part of the execution loop: one `recordTradeFn`
call per fill, at the resting price, in consumption order. -/
def executeFills (side : Side) (username : String) (ds de now : Int) :
    List (Order × Int) → MarketState → MarketState × List Trade
  | [], s => (s, [])
  | f :: fills, s =>
    let buyer := if side = .BUY then username else f.1.user
    let seller := if side = .SELL then username else f.1.user
    let res := recordTrade s buyer seller f.1.price f.2 ds de now true
    let res' := executeFills side username ds de now fills res.1
    (res'.1, res.2 :: res'.2)

/-- The in-place mutation of a consumed resting order: its quantity is
reduced by the traded quantity, transitioning to FILLED at zero.  Orders
are identified by `orderId`; fills apply to the order they were produced
from. -/
def applyFill (fills : List (Order × Int)) (o : Order) : Order :=
  match fills.find? (fun f => f.1.orderId == o.orderId) with
  | none => o
  | some f =>
    let q := o.quantity - f.2
    if q ≤ 0 then { o with quantity := 0, active := false, status := .FILLED }
    else { o with quantity := q }

/-- Result of an engine entry point: either a rejection with an HTTP status
and message, or success carrying the submitted/modified order (in its
post-execution form) and the filled quantity. -/
inductive EngineResult where
  | failure (status : Nat) (message : String)
  | success (order : Order) (filledQuantity : Int)
deriving DecidableEq, Repr

/-- An engine call outcome: the result, the post-call state, and the trades
this call recorded (in production order). -/
structure EngineOutcome where
  result : EngineResult
  state : MarketState
  newTrades : List Trade
deriving DecidableEq, Repr

/-- A rejection leaves the state untouched and records no trades. -/
def EngineOutcome.fail (s : MarketState) (st : Nat) (msg : String) :
    EngineOutcome :=
  { result := .failure st msg, state := s, newTrades := [] }

/-- The temporary order pushed (and popped) by the collateral simulation of
`placeOrderV2`.  The source object carries no identifier, status or
creation time; `computePotentialBalance` never reads them. -/
def tmpOrder (username : String) (side : Side) (price quantity ds de : Int) :
    Order :=
  { orderId := 0
    user := username
    side := side
    price := price
    quantity := quantity
    originalQuantity := quantity
    deliveryStart := ds
    deliveryEnd := de
    active := true
    status := .ACTIVE
    createdAt := 0
    isV2 := true }

/-- The candidate preparation of `placeOrderV2`: filter the book down to
the crossing-eligible opposite side of the same contract and sort it into
price-time order. -/
def placeCandidates (side : Side) (ds de : Int) (s : MarketState) :
    List Order :=
  sortCandidates side (s.orders.filter (isCandidate side ds de))

/-- The execution phase of `placeOrderV2` (everything after the four
admission checks): build the incoming order, walk the candidates, record
the trades, decrement the consumed resting orders, and either mark the
incoming order FILLED or insert its residual into the book. -/
def incomingOrder (now : Int) (username : String) (side : Side)
    (price quantity ds de : Int) (oid : Nat) : Order :=
  { orderId := oid
    user := username
    side := side
    price := price
    quantity := quantity
    originalQuantity := quantity
    deliveryStart := ds
    deliveryEnd := de
    active := true
    status := .ACTIVE
    createdAt := now
    isV2 := true }

def placeOrderV2Exec (now : Int) (username : String) (side : Side)
    (price quantity ds de : Int) (candidates : List Order)
    (s : MarketState) : EngineOutcome :=
  let incoming : Order :=
    incomingOrder now username side price quantity ds de s.nextOrderId
  let res := matchLoop side price quantity candidates
  let fills := res.1
  let remaining := res.2
  let filled := (fills.map (·.2)).sum
  let recorded :=
    executeFills side username ds de now fills
      { s with nextOrderId := s.nextOrderId + 1 }
  let s1 := recorded.1
  let incoming' :=
    if remaining ≤ 0 then
      { incoming with
          quantity := remaining
          active := false
          status := .FILLED }
    else { incoming with quantity := remaining }
  let newOrders := s1.orders.map (applyFill fills)
  let finalOrders :=
    if remaining ≤ 0 then newOrders else newOrders ++ [incoming']
  { result := .success incoming' filled,
    state := { s1 with orders := finalOrders },
    newTrades := recorded.2 }

/-- `placeOrderV2` from orders.js.  `col` models `getCollateral`,
`now` models `Date.now()` (the source samples it several times within one
call; all samples are modelled by the single request time). -/
def placeOrderV2 (col : String → Option Int) (now : Int) (username : String)
    (side : Side) (price quantity ds de : Int) (s : MarketState) :
    EngineOutcome :=
  match validateOrderFields price quantity ds de with
  | some msg => EngineOutcome.fail s 400 msg
  | none =>
  match checkTradingWindow now ds with
  | some r => EngineOutcome.fail s r.1 r.2
  | none =>
    -- collateral check, simulating the new order resting at full quantity
    let tmp := tmpOrder username side price quantity ds de
    if violatesCollateral col { s with orders := s.orders ++ [tmp] } username then
      EngineOutcome.fail s 402 "Insufficient collateral"
    else
      let candidates := placeCandidates side ds de s
      if selfMatchScan side price username quantity candidates then
        EngineOutcome.fail s 412 "Self-match prevented"
      else
        placeOrderV2Exec now username side price quantity ds de candidates s

/-- `findActiveV2Order` from orders.js. -/
def findActiveV2Order (s : MarketState) (orderId : Nat) : Option Order :=
  match s.orders.find? (fun x => x.orderId == orderId && x.isV2) with
  | none => none
  | some o =>
    if o.active = false ∨ o.quantity ≤ 0 ∨ o.status ≠ .ACTIVE then none
    else some o

/-- Replace (the first occurrence of) the v2 order with this identifier,
modelling the in-place mutation of the object that `Array.find` returned. -/
def updateFirstById (orderId : Nat) (o' : Order) : List Order → List Order
  | [] => []
  | x :: xs =>
    if x.orderId = orderId ∧ x.isV2 then o' :: xs
    else x :: updateFirstById orderId o' xs

/-- The in-place field update a modification applies to the found order:
new price and quantity, original quantity raised if the new quantity
exceeds it, and the priority timestamp reset to `now` when the price
changes or the quantity increases. -/
def modifiedOrder (now newPrice newQty : Int) (o : Order) : Order :=
  { o with
      price := newPrice
      quantity := newQty
      originalQuantity :=
        if o.originalQuantity < newQty then newQty else o.originalQuantity
      createdAt :=
        if newPrice ≠ o.price ∨ o.quantity < newQty then now
        else o.createdAt }

/-- The execution phase of `modifyOrderV2` (everything after its checks):
`o1` is the modified order (new price and quantity applied, original
quantity raised if needed, priority timestamp reset per the
price/quantity-increase rule); it replaces the old record in place, the
opposite side is re-collected and re-walked, and the residual (or FILLED)
order is stored back. -/
def modifyOrderV2Exec (now : Int) (username : String) (orderId : Nat)
    (o1 : Order) (s : MarketState) : EngineOutcome :=
  let side := o1.side
  let ds := o1.deliveryStart
  let de := o1.deliveryEnd
  let orders1 := updateFirstById orderId o1 s.orders
  let candidates2 :=
    sortCandidates side (orders1.filter (isCandidate side ds de))
  let res := matchLoop side o1.price o1.quantity candidates2
  let fills := res.1
  let remaining := res.2
  let filled := (fills.map (·.2)).sum
  let recorded := executeFills side username ds de now fills s
  let s1 := recorded.1
  let o2 : Order :=
    if remaining ≤ 0 then
      { o1 with quantity := 0, active := false, status := .FILLED }
    else { o1 with quantity := remaining }
  let finalOrders :=
    updateFirstById orderId o2 (orders1.map (applyFill fills))
  { result := .success o2 filled,
    state := { s1 with orders := finalOrders },
    newTrades := recorded.2 }

/-- The self-match prevention loop of `modifyOrderV2`: it fires on any
crossing opposite-side order of the submitting user, with no regard to the
consumption order (`crosses` is `newPrice >= rest.price` for a BUY,
`newPrice <= rest.price` for a SELL). -/
def modifySelfMatch (side : Side) (newPrice : Int) (username : String)
    (cands : List Order) : Bool :=
  cands.any (fun rest =>
    (decide (if side = Side.BUY then rest.price ≤ newPrice
             else newPrice ≤ rest.price)) && (rest.user == username))

/-- `modifyOrderV2` from orders.js. -/
def modifyOrderV2 (col : String → Option Int) (now : Int) (username : String)
    (orderId : Nat) (newPrice newQty : Int) (s : MarketState) :
    EngineOutcome :=
  if newQty ≤ 0 then EngineOutcome.fail s 400 "Quantity must be positive"
  else
  match findActiveV2Order s orderId with
  | none => EngineOutcome.fail s 404 "Order not found or not modifiable"
  | some o =>
    if o.user ≠ username then
      EngineOutcome.fail s 403 "Cannot modify order of another user"
    else
      -- collateral check with price/quantity temporarily replaced
      let oHyp : Order := { o with price := newPrice, quantity := newQty }
      let hyp : MarketState :=
        { s with orders := updateFirstById orderId oHyp s.orders }
      if violatesCollateral col hyp username then
        EngineOutcome.fail s 402 "Insufficient collateral"
      else
        let side := o.side
        let ds := o.deliveryStart
        let de := o.deliveryEnd
        let candidates1 :=
          sortCandidates side
            (s.orders.filter
              (fun x => isCandidate side ds de x && !(x.orderId == orderId)))
        -- self-match prevention: any crossing opposite-side own order
        if modifySelfMatch side newPrice username candidates1
        then EngineOutcome.fail s 412 "Self-match prevented"
        else
          modifyOrderV2Exec now username orderId
            (modifiedOrder now newPrice newQty o) s

/-- `cancelOrderV2` from orders.js.  The source returns a bare `{ ok: true }`
on success; the success order and filled quantity 0 are a convenience. -/
def cancelOrderV2 (username : String) (orderId : Nat) (s : MarketState) :
    EngineOutcome :=
  match s.orders.find? (fun x => x.orderId == orderId && x.isV2) with
  | none => EngineOutcome.fail s 404 "Order not found or already cancelled"
  | some o =>
    if o.status = .CANCELLED then
      EngineOutcome.fail s 404 "Order not found or already cancelled"
    else if o.status = .FILLED ∨ o.active = false ∨ o.quantity ≤ 0 then
      EngineOutcome.fail s 404 "Order not cancellable"
    else if o.user ≠ username then
      EngineOutcome.fail s 403 "Cannot cancel order of another user"
    else
      let o' := { o with active := false, status := .CANCELLED, quantity := 0 }
      { result := .success o' 0,
        state := { s with orders := updateFirstById orderId o' s.orders },
        newTrades := [] }

/-- `findAndFillOrder` from orders.js (the legacy v1 fill): marks any
active order as fully filled, returning the filled order and quantity. -/
def findAndFillOrder (s : MarketState) (orderId : Nat) :
    Option (Order × Int × MarketState) :=
  match s.orders.find? (fun x => x.orderId == orderId) with
  | none => none
  | some o =>
    if o.active = false then none
    else
      let filledQty := o.quantity
      let o' := { o with quantity := 0, active := false, status := .FILLED }
      some (o', filledQty,
        { s with orders :=
            (s.orders.map (fun x => if x.orderId = orderId then o' else x)) })

/-- The `POST /trades` handler (legacy take) from the server module: fills
the order and records a trade with buyer = the authenticated caller and
seller = the owner of the order, with no buyer-versus-seller check. -/
def takeOrderLegacy (username : String) (orderId : Nat) (now : Int)
    (s : MarketState) : EngineOutcome :=
  match findAndFillOrder s orderId with
  | none => EngineOutcome.fail s 404 "Order not found or inactive"
  | some (o, qty, s1) =>
    let res := recordTrade s1 username o.user o.price qty
      o.deliveryStart o.deliveryEnd now false
    { result := .success o qty, state := res.1, newTrades := [res.2] }

/-! ### The `POST /v2/bulk-operations` handler

The server snapshots the order book and the trade ledger
(`snapshotOrders` / `snapshotTrades`, both deep copies), applies the
operations in submission order through the ordinary engine entry points
with a buffering trade recorder, restores both snapshots on the first
failure, and broadcasts the buffered v2 trades on success.  In the pure
state-passing embedding a deep-copied snapshot is the state value itself,
so restoring the snapshots returns the pre-batch state value. -/

/-- A batch operation.  The JavaScript objects are dynamically typed; the
distinct failure for an unknown `type` string has no counterpart in the
typed embedding. -/
inductive BulkOp where
  | create (participantToken : String) (side : Side) (price quantity : Int)
  | modify (participantToken : String) (orderId : Nat) (price quantity : Int)
  | cancel (participantToken : String) (orderId : Nat)
deriving DecidableEq, Repr

/-- One contract group of a batch. -/
structure BulkContract where
  delivery_start : Int
  delivery_end : Int
  operations : List BulkOp
deriving DecidableEq, Repr

/-- Outcome of a batch: the overall HTTP status (200 on success), the
post-batch state, and the trades pushed to the stream consumers after the
batch. -/
structure BulkOutcome where
  status : Nat
  message : String
  state : MarketState
  broadcasts : List Trade
deriving DecidableEq, Repr

def THIRTY_DAYS_MS : Int := 30 * 24 * ONE_HOUR_MS

/-- The operation loop of one contract group: each operation resolves its
participant token and runs through the ordinary engine entry point with
the buffering recorder (`bulkRecordFn`, which buffers the trades whose
`isV2` flag is set). -/
def runBulkOps (tokens : String → Option String) (col : String → Option Int)
    (now ds de : Int) :
    List BulkOp → MarketState → List Trade →
    Except (Nat × String) (MarketState × List Trade)
  | [], s, buf => .ok (s, buf)
  | op :: ops, s, buf =>
    let token := match op with
      | .create t _ _ _ => t
      | .modify t _ _ _ => t
      | .cancel t _ => t
    match tokens token with
    | none => .error (401, "Invalid participant token")
    | some username =>
      match op with
      | .create _ side price quantity =>
        let out := placeOrderV2 col now username side price quantity ds de s
        match out.result with
        | .failure st msg => .error (st, msg)
        | .success _ _ =>
          runBulkOps tokens col now ds de ops out.state
            (buf ++ out.newTrades.filter (·.isV2))
      | .modify _ orderId price quantity =>
        let out := modifyOrderV2 col now username orderId price quantity s
        match out.result with
        | .failure st msg => .error (st, msg)
        | .success _ _ =>
          runBulkOps tokens col now ds de ops out.state
            (buf ++ out.newTrades.filter (·.isV2))
      | .cancel _ orderId =>
        let out := cancelOrderV2 username orderId s
        match out.result with
        | .failure st msg => .error (st, msg)
        | .success _ _ =>
          runBulkOps tokens col now ds de ops out.state
            (buf ++ out.newTrades.filter (·.isV2))

/-- The contract loop of the batch handler: per-contract validation, then
the operations of the contract. -/
def runBulkContracts (tokens : String → Option String)
    (col : String → Option Int) (now : Int) :
    List BulkContract → MarketState → List Trade →
    Except (Nat × String) (MarketState × List Trade)
  | [], s, buf => .ok (s, buf)
  | c :: cs, s, buf =>
    if c.delivery_start % ONE_HOUR_MS ≠ 0 ∨ c.delivery_end % ONE_HOUR_MS ≠ 0 ∨
        c.delivery_end ≤ c.delivery_start ∨
        c.delivery_end - c.delivery_start ≠ ONE_HOUR_MS then
      .error (400, "Invalid delivery window")
    else if c.delivery_end ≤ now then
      .error (451, "Delivery window is in the past")
    else if now + THIRTY_DAYS_MS < c.delivery_start then
      .error (425, "Delivery window is too far in the future")
    else
      match runBulkOps tokens col now c.delivery_start c.delivery_end
          c.operations s buf with
      | .error e => .error e
      | .ok (s', buf') => runBulkContracts tokens col now cs s' buf'

/-- The whole `POST /v2/bulk-operations` handler: on the first failure the
snapshots taken before the batch are restored (= the pre-batch state value)
and the buffer is discarded; on success the buffered trades are broadcast
in the order they were produced. -/
def processBulk (tokens : String → Option String) (col : String → Option Int)
    (now : Int) (contracts : List BulkContract) (s : MarketState) :
    BulkOutcome :=
  match runBulkContracts tokens col now contracts s [] with
  | .error e =>
    { status := e.1, message := e.2, state := s, broadcasts := [] }
  | .ok (s', buf) =>
    { status := 200, message := "", state := s', broadcasts := buf }

/-! ### galacticbuf.js — the binary wire codec

The v2-capable revision of the codec, with both wire versions.  Byte
strings are modelled as `List Nat` (each entry < 256 in every value the
JavaScript side can produce); JavaScript strings and field names are
modelled by their UTF-8 byte sequences.  JavaScript `number` and `bigint`
integers are both modelled as `Int` — the codec encodes both through
`writeBigInt64BE`, and the decoder surfaces the same mathematical integer
(as `number` when safe, as `bigint` otherwise).  Encoding failures
(`throw`) are modelled by `Option`. -/

def VERSION_V1 : Nat := 1
def VERSION_V2 : Nat := 2
def TYPE_INT : Nat := 1
def TYPE_STRING : Nat := 2
def TYPE_LIST : Nat := 3
def TYPE_OBJECT : Nat := 4
def TYPE_BYTES : Nat := 5

/-- The element type of a `GalacticList` (`'int' | 'string' | 'object'`). -/
inductive ElemType where
  | etInt
  | etStr
  | etObj
deriving DecidableEq, Repr

/-- The wire code of a list element type. -/
def ElemType.code : ElemType → Nat
  | .etInt => TYPE_INT
  | .etStr => TYPE_STRING
  | .etObj => TYPE_OBJECT

/-- Element type from its wire code.  (For an *empty* list the JavaScript
decoder accepts any element-type byte without inspecting it; such buffers
are not encoder outputs, and the embedding rejects them so that the
decoded value can carry its element type.) -/
def elemTypeOfCode (c : Nat) : Option ElemType :=
  if c = TYPE_INT then some .etInt
  else if c = TYPE_STRING then some .etStr
  else if c = TYPE_OBJECT then some .etObj
  else none

/-- The abstract values the codec transports: 64-bit integers, strings
(UTF-8 bytes), raw byte strings, homogeneous lists tagged with their
element type (the `GalacticList` wrapper), and objects as
insertion-ordered field lists. -/
inductive GValue where
  | vInt (i : Int)
  | vStr (s : List Nat)
  | vBytes (b : List Nat)
  | vList (et : ElemType) (items : List GValue)
  | vObj (fields : List (List Nat × GValue))

/-- Big-endian fixed-width bytes of a natural number (the
`writeUIntNBE` family). -/
def natToBytesBE : Nat → Nat → List Nat
  | 0, _ => []
  | len + 1, n => natToBytesBE len (n / 256) ++ [n % 256]

/-- Big-endian byte-string value (the `readUIntNBE` family). -/
def bytesToNat (bs : List Nat) : Nat :=
  bs.foldl (fun acc b => acc * 256 + b) 0

/-- `writeBigInt64BE`: two's-complement big-endian, throwing when the
value does not fit a signed 64-bit integer. -/
def encodeInt (i : Int) : Option (List Nat) :=
  if -(2 ^ 63) ≤ i ∧ i < 2 ^ 63 then
    some (natToBytesBE 8 (i % 2 ^ 64).toNat)
  else none

/-- `readBigInt64BE` of an 8-byte big-endian buffer. -/
def decodeInt64 (bs : List Nat) : Int :=
  let n : Int := bytesToNat bs
  if n < 2 ^ 63 then n else n - 2 ^ 64

/-- Length-field width: 2 bytes for v1, 4 bytes for v2. -/
def lenBytesOf (ver : Nat) : Nat := if ver = VERSION_V1 then 2 else 4

/-- `encodeString`: version-dependent length cap and length field. -/
def encodeStringV (ver : Nat) (s : List Nat) : Option (List Nat) :=
  if ver = VERSION_V1 ∧ 65535 < s.length then none
  else if ver = VERSION_V2 ∧ 4294967295 < s.length then none
  else some (natToBytesBE (lenBytesOf ver) s.length ++ s)

/-- `encodeBytes`: always a 4-byte length field. -/
def encodeBytesV (b : List Nat) : Option (List Nat) :=
  if 4294967295 < b.length then none
  else some (natToBytesBE 4 b.length ++ b)

mutual

/-- The value-encoding dispatch of `encodeFields`: the type code chosen for
the value and the encoded value bytes. -/
def encodeValue (ver : Nat) : GValue → Option (Nat × List Nat)
  | .vList et items =>
    (encodeListV ver et items).map (fun b => (TYPE_LIST, b))
  | .vBytes b => (encodeBytesV b).map (fun bb => (TYPE_BYTES, bb))
  | .vInt i => (encodeInt i).map (fun bb => (TYPE_INT, bb))
  | .vStr s => (encodeStringV ver s).map (fun bb => (TYPE_STRING, bb))
  | .vObj fields => (encodeObjectV ver fields).map (fun bb => (TYPE_OBJECT, bb))

/-- `encodeList`: element-type byte, element count, then the elements. -/
def encodeListV (ver : Nat) (et : ElemType) (items : List GValue) :
    Option (List Nat) :=
  if ver = VERSION_V1 ∧ 65535 < items.length then none
  else if ver = VERSION_V2 ∧ 4294967295 < items.length then none
  else
    match encodeItems ver et items with
    | none => none
    | some body =>
      some (et.code :: natToBytesBE (lenBytesOf ver) items.length ++ body)

/-- The element loop of `encodeList`: every element must match the declared
element type (a mismatch makes the corresponding `encodeInt` /
`encodeString` / `encodeObject` call throw). -/
def encodeItems (ver : Nat) (et : ElemType) : List GValue → Option (List Nat)
  | [] => some []
  | x :: xs =>
    match et, x with
    | .etInt, .vInt i =>
      match encodeInt i, encodeItems ver et xs with
      | some b, some rest => some (b ++ rest)
      | _, _ => none
    | .etStr, .vStr s =>
      match encodeStringV ver s, encodeItems ver et xs with
      | some b, some rest => some (b ++ rest)
      | _, _ => none
    | .etObj, .vObj fs =>
      match encodeObjectV ver fs, encodeItems ver et xs with
      | some b, some rest => some (b ++ rest)
      | _, _ => none
    | _, _ => none

/-- `encodeObject`: one field-count byte (`writeUInt8` throws above 255),
then the fields. -/
def encodeObjectV (ver : Nat) (fields : List (List Nat × GValue)) :
    Option (List Nat) :=
  if 255 < fields.length then none
  else
    match encodeFields ver fields with
    | none => none
    | some body => some (fields.length :: body)

/-- `encodeFields`: per field, a name-length byte (1..255 enforced), the
name bytes, the type code, and the value bytes. -/
def encodeFields (ver : Nat) : List (List Nat × GValue) → Option (List Nat)
  | [] => some []
  | (name, v) :: rest =>
    if name.length = 0 ∨ 255 < name.length then none
    else
      match encodeValue ver v with
      | none => none
      | some tb =>
        match encodeFields ver rest with
        | none => none
        | some rb => some (name.length :: name ++ tb.1 :: tb.2 ++ rb)

end

/-- `encodeMessage` of the v2-capable codec: version byte, field-count
byte, total length (2 bytes v1 / 4 bytes v2), then the fields. -/
def encodeMessage (fields : List (List Nat × GValue)) (ver : Nat) :
    Option (List Nat) :=
  if ver ≠ VERSION_V1 ∧ ver ≠ VERSION_V2 then none
  else if 255 < fields.length then none
  else
    match encodeFields ver fields with
    | none => none
    | some body =>
      let headerLength := if ver = VERSION_V1 then 4 else 6
      let totalLength := headerLength + body.length
      if ver = VERSION_V1 ∧ 65535 < totalLength then none
      else if ver = VERSION_V2 ∧ 4294967295 < totalLength then none
      else
        some (ver :: fields.length ::
          natToBytesBE (lenBytesOf ver) totalLength ++ body)

/-! The decoder.  The JavaScript decoder recurses through nested objects and
lists while advancing a monotone offset; every recursive step consumes at
least one byte, so the recursion depth is bounded by the buffer length.
The embedding makes that bound explicit as a `fuel` argument, decremented
on every recursive call; `decodeMessage` passes the buffer length as fuel,
which the byte-consumption argument makes sufficient for every input. -/

mutual

/-- `decodeFields`: reads `count` fields, returning them with the
unconsumed remainder. -/
def decodeFieldsF : Nat → Nat → Nat → List Nat →
    Option (List (List Nat × GValue) × List Nat)
  | _, _, 0, bs => some ([], bs)
  | 0, _, _ + 1, _ => none
  | fuel + 1, ver, count + 1, bs =>
    if bs.length = 0 then none
    else
      -- nameLen = bs[0]; the name, the type code and the value follow
      if (bs.drop 1).length < bs.headD 0 + 1 then none
      else
        match decodeValueF fuel ver (((bs.drop 1).drop (bs.headD 0)).headD 0)
            ((bs.drop 1).drop (bs.headD 0 + 1)) with
        | none => none
        | some (v, bs3) =>
          match decodeFieldsF fuel ver count bs3 with
          | none => none
          | some (fs, bs4) => some (((bs.drop 1).take (bs.headD 0), v) :: fs, bs4)
termination_by structural fuel _ _ _ => fuel

/-- The value-decoding dispatch of `decodeFields`, by type code. -/
def decodeValueF : Nat → Nat → Nat → List Nat →
    Option (GValue × List Nat)
  | 0, _, _, _ => none
  | fuel + 1, ver, tc, bs =>
    if tc = TYPE_INT then
      if bs.length < 8 then none
      else some (.vInt (decodeInt64 (bs.take 8)), bs.drop 8)
    else if tc = TYPE_STRING then
      if bs.length < lenBytesOf ver then none
      else
        if (bs.drop (lenBytesOf ver)).length <
            bytesToNat (bs.take (lenBytesOf ver)) then none
        else
          some (.vStr ((bs.drop (lenBytesOf ver)).take
              (bytesToNat (bs.take (lenBytesOf ver)))),
            (bs.drop (lenBytesOf ver)).drop
              (bytesToNat (bs.take (lenBytesOf ver))))
    else if tc = TYPE_LIST then
      if bs.length < 1 + lenBytesOf ver then none
      else
        -- element-type byte, element count, then the elements
        match elemTypeOfCode (bs.headD 0) with
        | none => none
        | some et =>
          match decodeItemsF fuel ver et
              (bytesToNat ((bs.drop 1).take (lenBytesOf ver)))
              (bs.drop (1 + lenBytesOf ver)) with
          | none => none
          | some (items, r) => some (.vList et items, r)
    else if tc = TYPE_OBJECT then
      if bs.length = 0 then none
      else
        match decodeFieldsF fuel ver (bs.headD 0) (bs.drop 1) with
        | none => none
        | some (fields, r) => some (.vObj fields, r)
    else if tc = TYPE_BYTES then
      if bs.length < 4 then none
      else
        if (bs.drop 4).length < bytesToNat (bs.take 4) then none
        else
          some (.vBytes ((bs.drop 4).take (bytesToNat (bs.take 4))),
            (bs.drop 4).drop (bytesToNat (bs.take 4)))
    else none
termination_by structural fuel _ _ _ => fuel

/-- The element loop of the list decoder. -/
def decodeItemsF : Nat → Nat → ElemType → Nat → List Nat →
    Option (List GValue × List Nat)
  | _, _, _, 0, bs => some ([], bs)
  | 0, _, _, _ + 1, _ => none
  | fuel + 1, ver, et, count + 1, bs =>
    match et with
    | .etInt =>
      if bs.length < 8 then none
      else
        match decodeItemsF fuel ver et count (bs.drop 8) with
        | none => none
        | some (xs, r) => some (.vInt (decodeInt64 (bs.take 8)) :: xs, r)
    | .etStr =>
      if bs.length < lenBytesOf ver then none
      else
        if (bs.drop (lenBytesOf ver)).length <
            bytesToNat (bs.take (lenBytesOf ver)) then none
        else
          match decodeItemsF fuel ver et count
              ((bs.drop (lenBytesOf ver)).drop
                (bytesToNat (bs.take (lenBytesOf ver)))) with
          | none => none
          | some (xs, r) =>
            some (.vStr ((bs.drop (lenBytesOf ver)).take
                (bytesToNat (bs.take (lenBytesOf ver)))) :: xs, r)
    | .etObj =>
      if bs.length = 0 then none
      else
        match decodeFieldsF fuel ver (bs.headD 0) (bs.drop 1) with
        | none => none
        | some (fields, r1) =>
          match decodeItemsF fuel ver et count r1 with
          | none => none
          | some (xs, r) => some (.vObj fields :: xs, r)
termination_by structural fuel _ _ _ _ => fuel

end

/-- `decodeMessage` of the v2-capable codec: header validation (version,
declared total length), field decoding, and the trailing-bytes check. -/
def decodeMessage (buf : List Nat) :
    Option (List (List Nat × GValue)) :=
  if buf.length < 4 then none
  else
    let ver := buf.headD 0
    let fieldCount := (buf.drop 1).headD 0
    if ver ≠ VERSION_V1 ∧ ver ≠ VERSION_V2 then none
    else if hv2 : ver = VERSION_V2 ∧ buf.length < 6 then none
    else
      let headerLength := if ver = VERSION_V1 then 4 else 6
      let totalLength := bytesToNat ((buf.drop 2).take (lenBytesOf ver))
      if totalLength ≠ buf.length then none
      else
        match decodeFieldsF buf.length ver fieldCount (buf.drop headerLength) with
        | none => none
        | some (fields, r) =>
          if r.length ≠ 0 then none else some fields

/-! ### Auxiliary predicates used by the statements -/

/-- The crossing condition of the matching loops: a BUY taker crosses a
resting sell priced at or below its limit, a SELL taker crosses a resting
buy priced at or above its limit. -/
def crossesAt (side : Side) (price : Int) (o : Order) : Prop :=
  match side with
  | .BUY => o.price ≤ price
  | .SELL => price ≤ o.price

instance (side : Side) (price : Int) : DecidablePred (crossesAt side price) :=
  fun o => by cases side <;> dsimp [crossesAt] <;> infer_instance

/-- Signed exposure of an order in the collateral model: `+price·quantity`
for a SELL, `−price·quantity` for a BUY. -/
def signedExposure (o : Order) : Int :=
  if o.side = .BUY then -(o.price * o.quantity) else o.price * o.quantity

/-- The per-order filter of the exposure sum: an active v2 order of the
user with positive remaining quantity. -/
def exposureRelevant (username : String) (o : Order) : Bool :=
  o.isV2 && o.active && decide (0 < o.quantity) && (o.user == username)

/-- Well-formed book state: order identifiers are pairwise distinct and
below the fresh-identifier counter.  This mirrors the identifier
uniqueness the source gets from 128-bit random identifiers. -/
def WFState (s : MarketState) : Prop :=
  (s.orders.map (·.orderId)).Nodup ∧ ∀ o ∈ s.orders, o.orderId < s.nextOrderId

/-- Declarative reading of the self-match probe: some own crossing order is
actually reached — every candidate before it crosses and belongs to
someone else, and walking them does not exhaust the simulated remaining
quantity. -/
def ReachesSelf (side : Side) (price : Int) (username : String)
    (quantity : Int) (cands : List Order) : Prop :=
  ∃ pre own post, cands = pre ++ own :: post ∧
    own.user = username ∧ crossesAt side price own ∧
    (∀ o ∈ pre, crossesAt side price o ∧ o.user ≠ username) ∧
    0 < pre.foldl (fun r o => r - min r o.quantity) quantity

/-- The time-independent shape of an engine result: the failure status
and message of a rejection, or the filled quantity of a success (the
success order also carries a creation timestamp, which does depend on the
request time). -/
def resKindOf : EngineResult → (Nat × String) ⊕ Int
  | .failure st msg => .inl (st, msg)
  | .success _ fq => .inr fq

/-! ### Concrete scenarios used as witnesses and counterexamples

`wContractStart` is a multiple of both one hour and one day, so its
trading window opens 15 days earlier at midnight UTC and closes one
minute before delivery. -/

def wContractStart : Int := 1728000000000

def wContractEnd : Int := wContractStart + ONE_HOUR_MS

/-- A request time inside the trading window (one hour before delivery). -/
def wNow : Int := wContractStart - ONE_HOUR_MS

/-- A request time after the close of trading (delivery start itself). -/
def wNowLate : Int := wContractStart

/-- A request time before the trading window opens. -/
def wNowEarly : Int := wContractStart - 16 * ONE_DAY_MS

/-- Unlimited collateral for everyone. -/
def wColUnlimited : String → Option Int := fun _ => none

/-- Collateral limit 0 for user B, unlimited otherwise. -/
def wColB0 : String → Option Int := fun u => if u == "B" then some 0 else none

/-- A resting sell: user A, 500 at price 150, arrived at time 1. -/
def wSellA : Order :=
  { orderId := 0
    user := "A"
    side := .SELL
    price := 150
    quantity := 500
    originalQuantity := 500
    deliveryStart := wContractStart
    deliveryEnd := wContractEnd
    active := true
    status := .ACTIVE
    createdAt := 1
    isV2 := true }

/-- A second resting sell at the same price, arrived later (time 2). -/
def wSellA2 : Order :=
  { wSellA with orderId := 1, quantity := 300, originalQuantity := 300, createdAt := 2 }

/-- A book holding only `wSellA`. -/
def wState1 : MarketState :=
  { orders := [wSellA]
    trades := []
    balances := []
    nextOrderId := 1
    nextTradeId := 0 }

/-- A book holding two same-priced sells of A in arrival order. -/
def wState2 : MarketState :=
  { orders := [wSellA, wSellA2]
    trades := []
    balances := []
    nextOrderId := 2
    nextTradeId := 0 }

/-- The residual BUY left by B buying 1200 at 150 against `wState1`. -/
def wResidualB : Order :=
  { orderId := 1
    user := "B"
    side := .BUY
    price := 150
    quantity := 700
    originalQuantity := 1200
    deliveryStart := wContractStart
    deliveryEnd := wContractEnd
    active := true
    status := .ACTIVE
    createdAt := wNow
    isV2 := true }

/-- An active BUY of user A (used by the modification scenarios). -/
def wBuyA5 : Order :=
  { orderId := 5
    user := "A"
    side := .BUY
    price := 5
    quantity := 5
    originalQuantity := 5
    deliveryStart := wContractStart
    deliveryEnd := wContractEnd
    active := true
    status := .ACTIVE
    createdAt := 0
    isV2 := true }

/-- A deep sell of another user priced to be consumed first. -/
def wSellB10 : Order :=
  { orderId := 6
    user := "B"
    side := .SELL
    price := 10
    quantity := 1000
    originalQuantity := 1000
    deliveryStart := wContractStart
    deliveryEnd := wContractEnd
    active := true
    status := .ACTIVE
    createdAt := 1
    isV2 := true }

/-- A shallow own sell behind the deep liquidity of B. -/
def wSellA20 : Order :=
  { orderId := 7
    user := "A"
    side := .SELL
    price := 20
    quantity := 7
    originalQuantity := 7
    deliveryStart := wContractStart
    deliveryEnd := wContractEnd
    active := true
    status := .ACTIVE
    createdAt := 2
    isV2 := true }

/-- The modification scenario: A owns a BUY and a SELL, with deep
liquidity of B between them. -/
def wStateMod : MarketState :=
  { orders := [wBuyA5, wSellB10, wSellA20]
    trades := []
    balances := []
    nextOrderId := 8
    nextTradeId := 0 }

/-- A BUY of user B waiting to be modified into a cross with A. -/
def wBuyB5 : Order :=
  { wBuyA5 with user := "B", price := 100 }

/-- The modification scenario for the trading-window claim: B owns a BUY
that a modification can cross with the resting sell of A. -/
def wStateMod2 : MarketState :=
  { orders := [wBuyB5, { wSellA with orderId := 6, quantity := 7, originalQuantity := 7 }]
    trades := []
    balances := []
    nextOrderId := 7
    nextTradeId := 0 }

/-- A participant-token table holding a single token of user B. -/
def wTokens : String → Option String :=
  fun t => if t == "tokB" then some "B" else none

/-- A one-contract, one-operation batch: B buys 1200 at 150. -/
def wBatch : List BulkContract :=
  [{ delivery_start := wContractStart
     delivery_end := wContractEnd
     operations := [.create "tokB" .BUY 150 1200] }]

/-- `wSellA` after being consumed in full. -/
def wSellAFilled : Order :=
  { wSellA with quantity := 0, active := false, status := .FILLED }

/-- `wSellA2` after 100 of its 300 were consumed. -/
def wSellA2Part : Order :=
  { wSellA2 with quantity := 200 }

/-- The trade produced by B buying 1200 at 150 against `wState1`. -/
def wTradeC2 : Trade :=
  { tradeId := 0
    buyerId := "B"
    sellerId := "A"
    price := 150
    quantity := 500
    timestamp := wNow
    delivery_start := wContractStart
    delivery_end := wContractEnd
    isV2 := true }

/-- A legacy (v1-style) active order of user A, takeable via POST /trades. -/
def wStateLegacy : MarketState :=
  { orders := [{ wSellA with isV2 := false }]
    trades := []
    balances := []
    nextOrderId := 1
    nextTradeId := 0 }

/-! ### Properties of the matching loop -/

theorem Side.opposite_ne (side : Side) : side.opposite ≠ side := by
  cases side <;> simp [Side.opposite]

theorem candLT_iff_not_candLE (side : Side) (a b : Order) :
    candLT side a b ↔ ¬ candLE side b a := by
  cases side <;> simp only [candLT, candLE] <;> omega

/-- `candLT` is irreflexive. -/
theorem candLT_irrefl (side : Side) (a : Order) : ¬ candLT side a a := by
  cases side <;> simp only [candLT] <;> omega

/-- The matching loop only ever stops early; the remaining quantity equals
the incoming quantity minus everything it consumed. -/
theorem matchLoop_sum (side : Side) (price : Int) (rem : Int)
    (l : List Order) :
    (matchLoop side price rem l).2 =
      rem - (((matchLoop side price rem l).1.map (·.2)).sum) := by
  induction l generalizing rem with
  | nil => simp [matchLoop]
  | cons h t ih =>
    unfold matchLoop
    split
    · simp
    · split
      · simp
      · split
        · simp
        · dsimp only
          split
          · simpa using ih rem
          · simp only [List.map_cons, List.sum_cons]
            rw [ih (rem - min rem h.quantity)]
            ring

/-- A nonnegative remaining quantity stays nonnegative. -/
theorem matchLoop_rem_nonneg (side : Side) (price : Int) (rem : Int)
    (l : List Order) (h : 0 ≤ rem) :
    0 ≤ (matchLoop side price rem l).2 := by
  induction l generalizing rem with
  | nil => simpa [matchLoop]
  | cons hd t ih =>
    unfold matchLoop
    split
    · simpa
    · split
      · simpa
      · split
        · simpa
        · dsimp only
          split
          · exact ih rem h
          · apply ih
            omega

/-- The loop produces no fill once the remaining quantity is exhausted. -/
theorem matchLoop_fills_nil (side : Side) (price : Int) (rem : Int)
    (l : List Order) (h : rem ≤ 0) :
    (matchLoop side price rem l).1 = [] := by
  cases l with
  | nil => simp [matchLoop]
  | cons hd t => unfold matchLoop; rw [if_pos h]

/-- A fill is only produced while remaining quantity is positive. -/
theorem matchLoop_pos_of_fill (side : Side) (price : Int) (rem : Int)
    (l : List Order) (f : Order × Int)
    (hf : f ∈ (matchLoop side price rem l).1) : 0 < rem := by
  by_contra h
  rw [matchLoop_fills_nil side price rem l (by omega)] at hf
  exact absurd hf (List.not_mem_nil f)

/-- Every fill consumes a candidate: the resting order is an element of the
walked list, the traded quantity is positive and at most its remaining
quantity, and the incoming price crosses it. -/
theorem matchLoop_fills_mem (side : Side) (price : Int) (rem : Int)
    (l : List Order) (f : Order × Int)
    (hf : f ∈ (matchLoop side price rem l).1) :
    f.1 ∈ l ∧ 0 < f.2 ∧ f.2 ≤ f.1.quantity ∧ crossesAt side price f.1 := by
  induction l generalizing rem with
  | nil => simp [matchLoop] at hf
  | cons hd t ih =>
    unfold matchLoop at hf
    split at hf
    · simp at hf
    · split at hf
      · simp at hf
      · split at hf
        · simp at hf
        · dsimp only at hf
          split at hf
          · have := ih _ hf
            exact ⟨List.mem_cons_of_mem hd this.1, this.2.1, this.2.2.1, this.2.2.2⟩
          · simp only [List.mem_cons] at hf
            rcases hf with rfl | hf
            · refine ⟨List.mem_cons_self hd t, by omega, min_le_right _ _, ?_⟩
              rename_i hb hs _
              cases side with
              | BUY => simp only [crossesAt]; simp at hb; omega
              | SELL => simp only [crossesAt]; simp at hs; omega
            · have := ih _ hf
              exact ⟨List.mem_cons_of_mem hd this.1, this.2.1, this.2.2.1,
                this.2.2.2⟩

/-- The resting orders of the fills form a sublist of the candidates: each
candidate is consumed at most once, in walk order. -/
theorem matchLoop_fills_sub (side : Side) (price : Int) (rem : Int)
    (l : List Order) :
    ((matchLoop side price rem l).1.map (·.1)).Sublist l := by
  induction l generalizing rem with
  | nil => simp [matchLoop]
  | cons hd t ih =>
    unfold matchLoop
    split
    · simp
    · split
      · simp
      · split
        · simp
        · dsimp only
          split
          · exact (ih rem).cons hd
          · simpa using (ih (rem - min rem hd.quantity)).cons₂ hd

/-- Price-time priority of consumption: walking a price-time-sorted
candidate list, if some candidate was consumed at all, then every
strictly-better-priority candidate was consumed in full. -/
theorem matchLoop_priority (side : Side) (price : Int) (rem : Int)
    (l : List Order) (hq : ∀ o ∈ l, 0 < o.quantity)
    (hsort : l.Pairwise (candLE side)) (a b : Order) (tqb : Int)
    (ha : a ∈ l) (hab : candLT side a b)
    (hb : (b, tqb) ∈ (matchLoop side price rem l).1) :
    (a, a.quantity) ∈ (matchLoop side price rem l).1 := by
  induction l generalizing rem with
  | nil => simp [matchLoop] at hb
  | cons hd t ih =>
    have hq' : ∀ o ∈ t, 0 < o.quantity :=
      fun o ho => hq o (List.mem_cons_of_mem hd ho)
    have hsort' : t.Pairwise (candLE side) := hsort.of_cons
    unfold matchLoop at hb ⊢
    split at hb
    · simp at hb
    · split at hb
      · simp at hb
      · split at hb
        · simp at hb
        · dsimp only at hb ⊢
          split at hb
          · -- the skip branch is impossible: the head has positive quantity
            rename_i hrem _ _ htq
            have := hq hd (List.mem_cons_self hd t)
            omega
          · rename_i hrem hc1 hc2 htq
            rw [if_neg hrem, if_neg hc1, if_neg hc2, if_neg htq]
            simp only [List.mem_cons] at hb ⊢
            rcases List.mem_cons.mp ha with heq | hat
            · subst heq
              rcases hb with hb | hb
              · -- b would be the head a itself, contradicting strictness
                have hba : b = a := congrArg Prod.fst hb
                subst hba
                exact absurd hab (candLT_irrefl side b)
              · -- b was consumed after the head a, so a was consumed in full
                have hpos := matchLoop_pos_of_fill side price _ t _ hb
                have hmin : min rem a.quantity = a.quantity := by omega
                left
                rw [hmin]
            · rcases hb with hb | hb
              · -- b would be the head, which has priority over a ∈ t
                have hba : b = hd := congrArg Prod.fst hb
                subst hba
                have hle : candLE side b a := (List.pairwise_cons.mp hsort).1 a hat
                exact absurd hle ((candLT_iff_not_candLE side a b).mp hab)
              · exact Or.inr (ih _ hq' hsort' hat hb)

/-- The self-match probe and the execution loop walk the candidates in
lockstep: when the probe reports no self-match, no fill consumes an order
of the submitting user. -/
theorem selfMatchScan_matchLoop (side : Side) (price : Int)
    (username : String) (rem : Int) (l : List Order)
    (hq : ∀ o ∈ l, 0 < o.quantity)
    (hscan : selfMatchScan side price username rem l = false)
    (f : Order × Int) (hf : f ∈ (matchLoop side price rem l).1) :
    f.1.user ≠ username := by
  induction l generalizing rem with
  | nil => simp [matchLoop] at hf
  | cons hd t ih =>
    have hq' : ∀ o ∈ t, 0 < o.quantity :=
      fun o ho => hq o (List.mem_cons_of_mem hd ho)
    unfold matchLoop at hf
    unfold selfMatchScan at hscan
    split at hf
    · simp at hf
    · rename_i hrem
      rw [if_neg hrem] at hscan
      split at hf
      · simp at hf
      · rename_i hc1
        rw [if_neg hc1] at hscan
        split at hf
        · simp at hf
        · rename_i hc2
          rw [if_neg hc2] at hscan
          dsimp only at hf
          split at hf
          · rename_i htq
            have := hq hd (List.mem_cons_self hd t)
            omega
          · split at hscan
            · exact absurd hscan (by simp)
            · rename_i hown
              simp only [List.mem_cons] at hf
              rcases hf with hf | hf
              · have : f.1 = hd := congrArg Prod.fst hf
                rw [this]; exact hown
              · exact ih _ hq' hscan hf

/-- `executeFills` never touches the order book. -/
theorem executeFills_orders (side : Side) (username : String)
    (ds de now : Int) (fills : List (Order × Int)) (s : MarketState) :
    (executeFills side username ds de now fills s).1.orders = s.orders := by
  induction fills generalizing s with
  | nil => rfl
  | cons f fills ih => simp only [executeFills, recordTrade]; rw [ih]

/-- `executeFills` leaves the order-identifier counter unchanged. -/
theorem executeFills_nextOrderId (side : Side) (username : String)
    (ds de now : Int) (fills : List (Order × Int)) (s : MarketState) :
    (executeFills side username ds de now fills s).1.nextOrderId =
      s.nextOrderId := by
  induction fills generalizing s with
  | nil => rfl
  | cons f fills ih => simp only [executeFills, recordTrade]; rw [ih]

/-- The trades recorded by `executeFills` are appended to the ledger in
production order. -/
theorem executeFills_trades (side : Side) (username : String)
    (ds de now : Int) (fills : List (Order × Int)) (s : MarketState) :
    (executeFills side username ds de now fills s).1.trades =
      s.trades ++ (executeFills side username ds de now fills s).2 := by
  induction fills generalizing s with
  | nil => simp [executeFills]
  | cons f fills ih =>
    simp only [executeFills]
    rw [ih]
    simp [recordTrade]

/-- Shape of each trade recorded by `executeFills`: one trade per fill, at
the resting price and fill quantity, between the submitting user and the
owner of the resting order, flagged v2. -/
theorem executeFills_mem (side : Side) (username : String)
    (ds de now : Int) (fills : List (Order × Int)) (s : MarketState)
    (t : Trade) (ht : t ∈ (executeFills side username ds de now fills s).2) :
    ∃ f ∈ fills, t.price = f.1.price ∧ t.quantity = f.2 ∧
      t.buyerId = (if side = .BUY then username else f.1.user) ∧
      t.sellerId = (if side = .SELL then username else f.1.user) ∧
      t.timestamp = now ∧ t.delivery_start = ds ∧ t.delivery_end = de ∧
      t.isV2 = true := by
  induction fills generalizing s with
  | nil => simp [executeFills] at ht
  | cons f fills ih =>
    simp only [executeFills, List.mem_cons] at ht
    rcases ht with rfl | ht
    · exact ⟨f, List.mem_cons_self f fills, rfl, rfl, rfl, rfl, rfl, rfl, rfl, rfl⟩
    · obtain ⟨f', hf', hrest⟩ := ih _ ht
      exact ⟨f', List.mem_cons_of_mem f hf', hrest⟩

/-- The recorded trade quantities are exactly the fill quantities. -/
theorem executeFills_quantities (side : Side) (username : String)
    (ds de now : Int) (fills : List (Order × Int)) (s : MarketState) :
    ((executeFills side username ds de now fills s).2.map (·.quantity)) =
      fills.map (·.2) := by
  induction fills generalizing s with
  | nil => rfl
  | cons f fills ih =>
    simp only [executeFills, List.map_cons]
    rw [ih]
    rfl

/-- `applyFill` never changes the order identifier. -/
theorem applyFill_orderId (fills : List (Order × Int)) (o : Order) :
    (applyFill fills o).orderId = o.orderId := by
  unfold applyFill
  split
  · rfl
  · dsimp only
    split <;> rfl

/-- An order without a fill keyed to its identifier is untouched. -/
theorem applyFill_of_none (fills : List (Order × Int)) (o : Order)
    (h : ∀ f ∈ fills, f.1.orderId ≠ o.orderId) : applyFill fills o = o := by
  unfold applyFill
  have : fills.find? (fun f => f.1.orderId == o.orderId) = none := by
    rw [List.find?_eq_none]
    intro f hf
    simpa using h f hf
  rw [this]

/-- With pairwise-distinct fill identifiers, the fill found for a filled
order is its own. -/
theorem find_fill_of_nodup (fills : List (Order × Int)) (o : Order)
    (tq : Int) (hN : (fills.map (fun f => f.1.orderId)).Nodup)
    (hmem : (o, tq) ∈ fills) :
    fills.find? (fun f => f.1.orderId == o.orderId) = some (o, tq) := by
  induction fills with
  | nil => simp at hmem
  | cons f fs ih =>
    rcases List.mem_cons.mp hmem with heq | hmem2
    · rw [← heq]
      rw [List.find?_cons_of_pos _ (by simp)]
    · have hid : o.orderId ∈ fs.map (fun f => f.1.orderId) :=
        List.mem_map.mpr ⟨(o, tq), hmem2, rfl⟩
      simp only [List.map_cons, List.nodup_cons] at hN
      have hne : f.1.orderId ≠ o.orderId := fun h => hN.1 (h ▸ hid)
      rw [List.find?_cons_of_neg _ (by simp [hne])]
      exact ih hN.2 hmem2

/-- The effect of `applyFill` on an order that was filled. -/
theorem applyFill_of_fill (fills : List (Order × Int)) (o : Order)
    (tq : Int) (hN : (fills.map (fun f => f.1.orderId)).Nodup)
    (hmem : (o, tq) ∈ fills) :
    applyFill fills o =
      if o.quantity - tq ≤ 0 then
        { o with quantity := 0, active := false, status := .FILLED }
      else { o with quantity := o.quantity - tq } := by
  unfold applyFill
  rw [find_fill_of_nodup fills o tq hN hmem]

/-- One exposure step adds the signed exposure of a relevant order and
ignores every other order (both source branches coincide). -/
theorem exposureStep_eq (username : String) (pot : Int) (o : Order) :
    exposureStep username pot o =
      pot + (if exposureRelevant username o then signedExposure o else 0) := by
  rcases le_or_lt o.quantity 0 with hqty | hqty
  · have h2 : exposureRelevant username o = false := by
      simp [exposureRelevant, not_lt.mpr hqty]
    rw [h2]
    unfold exposureStep
    rw [if_pos (Or.inr (Or.inr hqty))]
    simp
  · by_cases hv : o.isV2
    · by_cases hact : o.active
      · by_cases huser : o.user = username
        · have h2 : exposureRelevant username o = true := by
            simp [exposureRelevant, hv, hact, huser, hqty]
          rw [h2, if_pos rfl]
          unfold exposureStep
          rw [if_neg (by simp [hv, hact]; omega)]
          rw [if_neg (by simp [huser])]
          unfold signedExposure
          dsimp only
          cases hs : o.side <;> simp [hs, ite_self] <;> ring
        · have h2 : exposureRelevant username o = false := by
            simp [exposureRelevant, huser]
          rw [h2]
          unfold exposureStep
          rw [if_neg (by simp [hv, hact]; omega)]
          rw [if_pos huser]
          simp
      · have h2 : exposureRelevant username o = false := by
          simp [exposureRelevant, hact]
        rw [h2]
        unfold exposureStep
        rw [if_pos (Or.inr (Or.inl (by simp [hact])))]
        simp
    · have h2 : exposureRelevant username o = false := by
        simp [exposureRelevant, hv]
      rw [h2]
      unfold exposureStep
      rw [if_pos (Or.inl (by simp [hv]))]
      simp

/-- The potential balance is the realized balance plus the sum of signed
exposures over the active v2 orders of the user with positive remaining
quantity — the formula of the specification. -/
theorem computePotentialBalance_eq (s : MarketState) (username : String) :
    computePotentialBalance s username =
      mapGet s.balances username +
        ((s.orders.filter (exposureRelevant username)).map signedExposure).sum := by
  unfold computePotentialBalance
  generalize mapGet s.balances username = init
  induction s.orders generalizing init with
  | nil => simp
  | cons o t ih =>
    simp only [List.foldl_cons, List.filter_cons]
    rw [ih, exposureStep_eq]
    split <;> simp <;> ring

/-- Unfolding of the candidate filter. -/
theorem isCandidate_iff (side : Side) (ds de : Int) (o : Order) :
    isCandidate side ds de o = true ↔
      o.isV2 = true ∧ o.active = true ∧ o.side = side.opposite ∧
        o.deliveryStart = ds ∧ o.deliveryEnd = de ∧ 0 < o.quantity := by
  unfold isCandidate
  simp [and_assoc]

/-- An order on the submission side is never a candidate. -/
theorem isCandidate_same_side (side : Side) (ds de : Int) (o : Order)
    (h : o.side = side) : isCandidate side ds de o = false := by
  unfold isCandidate
  have : (o.side == side.opposite) = false := by
    rw [h]
    exact beq_eq_false_iff_ne.mpr (Ne.symm (Side.opposite_ne side))
  simp [this]

/-- Candidate membership: sorting is a permutation of the filter. -/
theorem mem_sortCandidates (side : Side) (l : List Order) (o : Order) :
    o ∈ sortCandidates side l ↔ o ∈ l := by
  exact (List.perm_insertionSort (candLE side) l).mem_iff

/-- The sorted candidates are pairwise ordered by the comparator. -/
theorem sortCandidates_pairwise (side : Side) (l : List Order) :
    (sortCandidates side l).Pairwise (candLE side) :=
  List.sorted_insertionSort (candLE side) l

/-- Sorting preserves duplicate-freedom. -/
theorem sortCandidates_nodup (side : Side) (l : List Order)
    (h : l.Nodup) : (sortCandidates side l).Nodup :=
  ((List.perm_insertionSort (candLE side) l).nodup_iff).mpr h

/-- Sorting and filtering keep the identifiers pairwise distinct. -/
theorem placeCandidates_ids_nodup (side : Side) (ds de : Int)
    (s : MarketState) (hN : (s.orders.map (·.orderId)).Nodup) :
    ((placeCandidates side ds de s).map (·.orderId)).Nodup := by
  have hperm := List.perm_insertionSort (candLE side)
    (s.orders.filter (isCandidate side ds de))
  have hsub : (s.orders.filter (isCandidate side ds de)).Sublist s.orders :=
    List.filter_sublist _
  have hfil : ((s.orders.filter (isCandidate side ds de)).map
      (·.orderId)).Nodup := List.Nodup.sublist (hsub.map _) hN
  exact ((hperm.map (·.orderId)).nodup_iff).mpr hfil

/-- A candidate list with distinct identifiers produces fills with
distinct identifiers. -/
theorem matchLoop_fills_ids_nodup (side : Side) (price rem : Int)
    (l : List Order) (hN : (l.map (·.orderId)).Nodup) :
    ((matchLoop side price rem l).1.map (fun f => f.1.orderId)).Nodup := by
  have hsub := (matchLoop_fills_sub side price rem l).map (·.orderId)
  rw [List.map_map] at hsub
  exact List.Nodup.sublist hsub hN

/-- In a book whose identifiers are distinct, orders are determined by
their identifier. -/
theorem eq_of_orderId_eq {l : List Order}
    (hN : (l.map (·.orderId)).Nodup) {a b : Order}
    (ha : a ∈ l) (hb : b ∈ l) (hid : a.orderId = b.orderId) : a = b :=
  List.inj_on_of_nodup_map hN ha hb hid

/-- Membership after an in-place replacement. -/
theorem mem_updateFirstById {oid : Nat} {o' : Order} {l : List Order}
    {x : Order} (hx : x ∈ updateFirstById oid o' l) : x = o' ∨ x ∈ l := by
  induction l with
  | nil => simp [updateFirstById] at hx
  | cons y ys ih =>
    unfold updateFirstById at hx
    split at hx
    · rcases List.mem_cons.mp hx with rfl | hx
      · exact Or.inl rfl
      · exact Or.inr (List.mem_cons_of_mem y hx)
    · rcases List.mem_cons.mp hx with heq | hx
      · rw [heq]; exact Or.inr (List.mem_cons_self y ys)
      · rcases ih hx with h | h
        · exact Or.inl h
        · exact Or.inr (List.mem_cons_of_mem y h)

/-- On a list where every order carrying the excluded identifier sits on
the submission side, the identifier-exclusion clause of the candidate
filter is redundant. -/
theorem filter_exclusion_eq (side : Side) (ds de : Int) (oid : Nat)
    (l : List Order)
    (hl : ∀ x ∈ l, x.orderId = oid → x.side = side) :
    l.filter (isCandidate side ds de) =
      l.filter (fun x => isCandidate side ds de x && !(x.orderId == oid)) := by
  induction l with
  | nil => rfl
  | cons z zs ihz =>
    have hz' : ∀ x ∈ zs, x.orderId = oid → x.side = side :=
      fun x hx => hl x (List.mem_cons_of_mem z hx)
    simp only [List.filter_cons]
    by_cases hzid : z.orderId = oid
    · have : isCandidate side ds de z = false :=
        isCandidate_same_side side ds de z
          (hl z (List.mem_cons_self z zs) hzid)
      simp only [this, Bool.false_and, Bool.false_eq_true, if_false]
      exact ihz hz'
    · have : (!(z.orderId == oid)) = true := by simp [hzid]
      rw [this]
      simp only [Bool.and_true]
      rw [ihz hz']

/-- If every order carrying the replaced identifier sits on the submission
side, re-filtering after the in-place replacement (by an order also on the
submission side) equals filtering the original list with the
identifier-exclusion clause of the first candidate collection. -/
theorem filter_updateFirst_eq (side : Side) (ds de : Int) (oid : Nat)
    (o1 : Order) (h1 : o1.side = side) (l : List Order)
    (hl : ∀ x ∈ l, x.orderId = oid → x.side = side) :
    (updateFirstById oid o1 l).filter (isCandidate side ds de) =
      l.filter (fun x => isCandidate side ds de x && !(x.orderId == oid)) := by
  induction l with
  | nil => rfl
  | cons y ys ih =>
    have hl' : ∀ x ∈ ys, x.orderId = oid → x.side = side :=
      fun x hx => hl x (List.mem_cons_of_mem y hx)
    unfold updateFirstById
    split
    · rename_i hy
      have hyc : isCandidate side ds de y = false :=
        isCandidate_same_side side ds de y (hl y (List.mem_cons_self y ys) hy.1)
      have ho1 : isCandidate side ds de o1 = false :=
        isCandidate_same_side side ds de o1 h1
      simp only [List.filter_cons, ho1, hyc, Bool.false_and,
        Bool.false_eq_true, if_false]
      exact filter_exclusion_eq side ds de oid ys hl'
    · rename_i hy
      by_cases hyid : y.orderId = oid
      · have hyc : isCandidate side ds de y = false :=
          isCandidate_same_side side ds de y
            (hl y (List.mem_cons_self y ys) hyid)
        simp only [List.filter_cons, hyc, Bool.false_and, Bool.false_eq_true,
          if_false]
        exact ih hl'
      · have : (!(y.orderId == oid)) = true := by simp [hyid]
        simp only [List.filter_cons, this, Bool.and_true]
        rw [ih hl']

/-- Re-filtering after the in-place replacement does not depend on the
replacement value, as long as neither value passes the filter — used to
show the matching phase of a modification is insensitive to the
priority-timestamp reset. -/
theorem filter_updateFirst_congr (p : Order → Bool) (oid : Nat)
    (o1 o2 : Order) (h1 : p o1 = false) (h2 : p o2 = false)
    (l : List Order) :
    (updateFirstById oid o1 l).filter p = (updateFirstById oid o2 l).filter p := by
  induction l with
  | nil => rfl
  | cons y ys ih =>
    unfold updateFirstById
    split
    · simp [List.filter_cons, h1, h2]
    · simp only [List.filter_cons]
      rw [ih]

/-- A successful submission passed all four admission checks and ran the
execution phase on the price-time-sorted candidates. -/
theorem placeOrderV2_success_elim (col : String → Option Int) (now : Int)
    (username : String) (side : Side) (price quantity ds de : Int)
    (s : MarketState) (o : Order) (fq : Int)
    (hres : (placeOrderV2 col now username side price quantity ds de s).result
      = .success o fq) :
    validateOrderFields price quantity ds de = none ∧
    checkTradingWindow now ds = none ∧
    selfMatchScan side price username quantity
      (placeCandidates side ds de s) = false ∧
    placeOrderV2 col now username side price quantity ds de s =
      placeOrderV2Exec now username side price quantity ds de
        (placeCandidates side ds de s) s := by
  unfold placeOrderV2 at hres ⊢
  split at hres
  · simp [EngineOutcome.fail] at hres
  · split at hres
    · simp [EngineOutcome.fail] at hres
    · dsimp only at hres ⊢
      split at hres
      · simp [EngineOutcome.fail] at hres
      · split at hres
        · simp [EngineOutcome.fail] at hres
        · rename_i x1 h1 x2 h2 h3 h4
          refine ⟨h1, h2, Bool.not_eq_true _ ▸ eq_false_of_ne_true h4, ?_⟩
          try simp only [h1, h2]
          rw [if_neg h3, if_neg h4]

/-- Every failing submission leaves the state unchanged and records no
trade. -/
theorem placeOrderV2_failure_elim (col : String → Option Int) (now : Int)
    (username : String) (side : Side) (price quantity ds de : Int)
    (s : MarketState) (st : Nat) (msg : String)
    (hres : (placeOrderV2 col now username side price quantity ds de s).result
      = .failure st msg) :
    (placeOrderV2 col now username side price quantity ds de s).state = s ∧
    (placeOrderV2 col now username side price quantity ds de s).newTrades
      = [] := by
  unfold placeOrderV2 at hres ⊢
  split
  · exact ⟨rfl, rfl⟩
  · split
    · exact ⟨rfl, rfl⟩
    · dsimp only
      split
      · exact ⟨rfl, rfl⟩
      · split
        · exact ⟨rfl, rfl⟩
        · rename_i x1 h1 x2 h2 h3 h4
          dsimp only at hres
          simp only [h1, h2] at hres
          rw [if_neg h3, if_neg h4] at hres
          simp [placeOrderV2Exec] at hres

/-- Unfolding of a found modifiable order. -/
theorem findActiveV2Order_elim (s : MarketState) (orderId : Nat) (o : Order)
    (h : findActiveV2Order s orderId = some o) :
    o ∈ s.orders ∧ o.orderId = orderId ∧ o.isV2 = true ∧ o.active = true ∧
      0 < o.quantity ∧ o.status = .ACTIVE := by
  unfold findActiveV2Order at h
  split at h
  · exact absurd h (by simp)
  · rename_i o2 hfind
    split at h
    · exact absurd h (by simp)
    · rename_i hcond
      push_neg at hcond
      obtain ⟨h1, h2, h3⟩ := hcond
      obtain rfl : o2 = o := by simpa using h
      have hmem := List.mem_of_find?_eq_some hfind
      have hpred := List.find?_some hfind
      simp only [Bool.and_eq_true, beq_iff_eq] at hpred
      exact ⟨hmem, hpred.1, hpred.2,
        by simpa using h1, by omega, by simpa using h3⟩

/-- A successful modification passed all its checks and ran the execution
phase on the modified order. -/
theorem modifyOrderV2_success_elim (col : String → Option Int) (now : Int)
    (username : String) (orderId : Nat) (newPrice newQty : Int)
    (s : MarketState) (o : Order) (fq : Int)
    (hres : (modifyOrderV2 col now username orderId newPrice newQty s).result
      = .success o fq) :
    ∃ o0, findActiveV2Order s orderId = some o0 ∧ o0.user = username ∧
      0 < newQty ∧
      modifySelfMatch o0.side newPrice username
        (sortCandidates o0.side (s.orders.filter
          (fun x => isCandidate o0.side o0.deliveryStart o0.deliveryEnd x &&
            !(x.orderId == orderId)))) = false ∧
      modifyOrderV2 col now username orderId newPrice newQty s =
        modifyOrderV2Exec now username orderId
          (modifiedOrder now newPrice newQty o0) s := by
  unfold modifyOrderV2 at hres ⊢
  split at hres
  · simp [EngineOutcome.fail] at hres
  · split at hres
    · simp [EngineOutcome.fail] at hres
    · dsimp only at hres ⊢
      split at hres
      · simp [EngineOutcome.fail] at hres
      · split at hres
        · simp [EngineOutcome.fail] at hres
        · split at hres
          · simp [EngineOutcome.fail] at hres
          · rename_i hq0 x o0 hfind huser hviol hany
            refine ⟨o0, hfind, not_ne_iff.mp huser, by omega,
              Bool.not_eq_true _ ▸ eq_false_of_ne_true hany, ?_⟩
            try rw [if_neg hq0]
            try simp only [hfind]
            rw [if_neg huser, if_neg hviol, if_neg hany]

/-- Every failing modification leaves the state unchanged and records no
trade. -/
theorem modifyOrderV2_failure_elim (col : String → Option Int) (now : Int)
    (username : String) (orderId : Nat) (newPrice newQty : Int)
    (s : MarketState) (st : Nat) (msg : String)
    (hres : (modifyOrderV2 col now username orderId newPrice newQty s).result
      = .failure st msg) :
    (modifyOrderV2 col now username orderId newPrice newQty s).state = s ∧
    (modifyOrderV2 col now username orderId newPrice newQty s).newTrades
      = [] := by
  unfold modifyOrderV2 at hres ⊢
  split
  · exact ⟨rfl, rfl⟩
  · split
    · exact ⟨rfl, rfl⟩
    · dsimp only
      split
      · exact ⟨rfl, rfl⟩
      · split
        · exact ⟨rfl, rfl⟩
        · split
          · exact ⟨rfl, rfl⟩
          · rename_i hq0 x o0 hfind huser hviol hany
            dsimp only at hres
            rw [if_neg hq0] at hres
            simp only [hfind] at hres
            rw [if_neg huser, if_neg hviol, if_neg hany] at hres
            simp [modifyOrderV2Exec] at hres

/-- The rejection statuses of the trading window: 425 or 451, never 402. -/
theorem checkTradingWindow_cases (now ds : Int) (r : Nat × String)
    (h : checkTradingWindow now ds = some r) : r.1 = 425 ∨ r.1 = 451 := by
  unfold checkTradingWindow at h
  split at h
  · simp only [Option.some.injEq] at h
    rw [← h]
    exact Or.inl rfl
  · split at h
    · simp only [Option.some.injEq] at h
      rw [← h]
      exact Or.inr rfl
    · simp at h

/-- A finite limit admits exactly the potentials at or above `-C`. -/
theorem violatesCollateral_false_iff (col : String → Option Int)
    (s : MarketState) (u : String) (C : Int) (hc : col u = some C) :
    violatesCollateral col s u = false ↔ -C ≤ computePotentialBalance s u := by
  unfold violatesCollateral
  rw [hc]
  simp

/-- An unlimited account never violates collateral. -/
theorem violatesCollateral_none (col : String → Option Int)
    (s : MarketState) (u : String) (hc : col u = none) :
    violatesCollateral col s u = false := by
  unfold violatesCollateral
  rw [hc]

/-- A successful submission passed the collateral simulation with the
incoming order resting at full quantity. -/
theorem placeOrderV2_success_noviol (col : String → Option Int) (now : Int)
    (username : String) (side : Side) (price quantity ds de : Int)
    (s : MarketState) (o : Order) (fq : Int)
    (hres : (placeOrderV2 col now username side price quantity ds de s).result
      = .success o fq) :
    violatesCollateral col
      { s with orders := s.orders ++
          [tmpOrder username side price quantity ds de] } username = false := by
  unfold placeOrderV2 at hres
  split at hres
  · simp [EngineOutcome.fail] at hres
  · split at hres
    · simp [EngineOutcome.fail] at hres
    · dsimp only at hres
      split at hres
      · simp [EngineOutcome.fail] at hres
      · rename_i x1 h1 x2 h2 h3
        exact eq_false_of_ne_true h3

/-- A submission that passes field validation and the trading window but
fails the collateral simulation is rejected 402. -/
theorem placeOrderV2_402_of_viol (col : String → Option Int) (now : Int)
    (username : String) (side : Side) (price quantity ds de : Int)
    (s : MarketState)
    (hval : validateOrderFields price quantity ds de = none)
    (hwin : checkTradingWindow now ds = none)
    (hviol : violatesCollateral col
      { s with orders := s.orders ++
          [tmpOrder username side price quantity ds de] } username = true) :
    (placeOrderV2 col now username side price quantity ds de s).result
      = .failure 402 "Insufficient collateral" := by
  unfold placeOrderV2
  rw [hval, hwin]
  dsimp only
  rw [if_pos hviol]
  rfl

/-- An unlimited account is never rejected 402 on submission. -/
theorem placeOrderV2_unlimited_no402 (col : String → Option Int) (now : Int)
    (username : String) (side : Side) (price quantity ds de : Int)
    (s : MarketState) (hcol : col username = none) (msg : String) :
    (placeOrderV2 col now username side price quantity ds de s).result
      ≠ .failure 402 msg := by
  intro hres
  unfold placeOrderV2 at hres
  split at hres
  · simp [EngineOutcome.fail] at hres
  · split at hres
    · rename_i r hr
      simp [EngineOutcome.fail] at hres
      rcases checkTradingWindow_cases now ds r hr with h | h <;> omega
    · dsimp only at hres
      split at hres
      · rename_i x1 h1 x2 h2 hv
        rw [violatesCollateral_none col _ username hcol] at hv
        simp at hv
      · split at hres
        · simp [EngineOutcome.fail] at hres
        · simp [placeOrderV2Exec] at hres

/-- A successful modification passed the collateral simulation with the
order hypothetically carrying the new price and quantity. -/
theorem modifyOrderV2_success_noviol (col : String → Option Int) (now : Int)
    (username : String) (orderId : Nat) (newPrice newQty : Int)
    (s : MarketState) (o : Order) (fq : Int)
    (hres : (modifyOrderV2 col now username orderId newPrice newQty s).result
      = .success o fq) :
    ∃ o0, findActiveV2Order s orderId = some o0 ∧
      violatesCollateral col
        { s with orders := updateFirstById orderId { o0 with price := newPrice, quantity := newQty } s.orders }
        username = false := by
  unfold modifyOrderV2 at hres
  split at hres
  · simp [EngineOutcome.fail] at hres
  · split at hres
    · simp [EngineOutcome.fail] at hres
    · dsimp only at hres
      split at hres
      · simp [EngineOutcome.fail] at hres
      · split at hres
        · simp [EngineOutcome.fail] at hres
        · rename_i hq0 x o0 hfind huser hviol
          exact ⟨o0, hfind, eq_false_of_ne_true hviol⟩

/-- A modification that reaches the collateral stage and fails it is
rejected 402. -/
theorem modifyOrderV2_402_of_viol (col : String → Option Int) (now : Int)
    (username : String) (orderId : Nat) (newPrice newQty : Int)
    (s : MarketState) (o0 : Order) (hq : 0 < newQty)
    (hfind : findActiveV2Order s orderId = some o0)
    (huser : o0.user = username)
    (hviol : violatesCollateral col
      { s with orders := updateFirstById orderId { o0 with price := newPrice, quantity := newQty } s.orders }
      username = true) :
    (modifyOrderV2 col now username orderId newPrice newQty s).result
      = .failure 402 "Insufficient collateral" := by
  unfold modifyOrderV2
  rw [if_neg (by omega), hfind]
  dsimp only
  rw [if_neg (by simp [huser]), if_pos hviol]
  rfl

/-- An unlimited account is never rejected 402 on modification. -/
theorem modifyOrderV2_unlimited_no402 (col : String → Option Int) (now : Int)
    (username : String) (orderId : Nat) (newPrice newQty : Int)
    (s : MarketState) (hcol : col username = none) (msg : String) :
    (modifyOrderV2 col now username orderId newPrice newQty s).result
      ≠ .failure 402 msg := by
  intro hres
  unfold modifyOrderV2 at hres
  split at hres
  · simp [EngineOutcome.fail] at hres
  · split at hres
    · simp [EngineOutcome.fail] at hres
    · dsimp only at hres
      split at hres
      · simp [EngineOutcome.fail] at hres
      · split at hres
        · rename_i hq0 x o0 hfind huser hv
          rw [violatesCollateral_none col _ username hcol] at hv
          simp at hv
        · split at hres
          · simp [EngineOutcome.fail] at hres
          · simp [modifyOrderV2Exec] at hres

/-- Result shape of the execution phase of a submission. -/
theorem placeOrderV2Exec_result (now : Int) (username : String)
    (side : Side) (price quantity ds de : Int) (cands : List Order)
    (s : MarketState) :
    (placeOrderV2Exec now username side price quantity ds de cands s).result =
      .success
        (if (matchLoop side price quantity cands).2 ≤ 0 then
          { incomingOrder now username side price quantity ds de s.nextOrderId
              with
              quantity := (matchLoop side price quantity cands).2
              active := false
              status := .FILLED }
         else
          { incomingOrder now username side price quantity ds de s.nextOrderId
              with quantity := (matchLoop side price quantity cands).2 })
        (((matchLoop side price quantity cands).1.map (·.2)).sum) := rfl

/-- The trades of the execution phase are those of its fill loop. -/
theorem placeOrderV2Exec_newTrades (now : Int) (username : String)
    (side : Side) (price quantity ds de : Int) (cands : List Order)
    (s : MarketState) :
    (placeOrderV2Exec now username side price quantity ds de cands s).newTrades
      = (executeFills side username ds de now
          (matchLoop side price quantity cands).1
          { s with nextOrderId := s.nextOrderId + 1 }).2 := rfl

/-- The post-execution book: consumed orders decremented in place, plus
the residual incoming order appended when anything remains. -/
theorem placeOrderV2Exec_orders (now : Int) (username : String)
    (side : Side) (price quantity ds de : Int) (cands : List Order)
    (s : MarketState) :
    (placeOrderV2Exec now username side price quantity ds de cands s).state.orders
      = (if (matchLoop side price quantity cands).2 ≤ 0 then
          s.orders.map (applyFill (matchLoop side price quantity cands).1)
        else
          s.orders.map (applyFill (matchLoop side price quantity cands).1) ++
            [{ incomingOrder now username side price quantity ds de
                s.nextOrderId with
                quantity := (matchLoop side price quantity cands).2 }]) := by
  unfold placeOrderV2Exec
  dsimp only
  rw [executeFills_orders]
  split <;> rfl

/-- A post-submission book entry whose identifier predates the submission
is a fill-decremented pre-submission entry. -/
theorem placeExec_mem_of_old (now : Int) (username : String) (side : Side)
    (price quantity ds de : Int) (cands : List Order) (s : MarketState)
    (x' : Order)
    (hx' : x' ∈ (placeOrderV2Exec now username side price quantity ds de
      cands s).state.orders)
    (hlt : x'.orderId < s.nextOrderId) :
    ∃ x ∈ s.orders,
      x' = applyFill (matchLoop side price quantity cands).1 x := by
  rw [placeOrderV2Exec_orders] at hx'
  split at hx'
  · obtain ⟨x, hx, hfx⟩ := List.mem_map.mp hx'
    exact ⟨x, hx, hfx.symm⟩
  · rcases List.mem_append.mp hx' with h | h
    · obtain ⟨x, hx, hfx⟩ := List.mem_map.mp h
      exact ⟨x, hx, hfx.symm⟩
    · exfalso
      simp only [List.mem_singleton] at h
      rw [h] at hlt
      simp [incomingOrder] at hlt

/-- The post-execution trade ledger: the new trades are appended. -/
theorem placeOrderV2Exec_trades (now : Int) (username : String)
    (side : Side) (price quantity ds de : Int) (cands : List Order)
    (s : MarketState) :
    (placeOrderV2Exec now username side price quantity ds de cands s).state.trades
      = s.trades ++
        (placeOrderV2Exec now username side price quantity ds de cands s).newTrades := by
  unfold placeOrderV2Exec
  dsimp only
  rw [executeFills_trades]

/-- Result shape of the execution phase of a modification. -/
theorem modifyOrderV2Exec_result (now : Int) (username : String)
    (orderId : Nat) (o1 : Order) (s : MarketState) :
    (modifyOrderV2Exec now username orderId o1 s).result =
      .success
        (if (matchLoop o1.side o1.price o1.quantity
              (sortCandidates o1.side ((updateFirstById orderId o1
                s.orders).filter
                (isCandidate o1.side o1.deliveryStart o1.deliveryEnd)))).2 ≤ 0
         then { o1 with quantity := 0, active := false, status := .FILLED }
         else { o1 with quantity := (matchLoop o1.side o1.price o1.quantity
            (sortCandidates o1.side ((updateFirstById orderId o1
              s.orders).filter
              (isCandidate o1.side o1.deliveryStart o1.deliveryEnd)))).2 })
        (((matchLoop o1.side o1.price o1.quantity
            (sortCandidates o1.side ((updateFirstById orderId o1
              s.orders).filter
              (isCandidate o1.side o1.deliveryStart o1.deliveryEnd)))).1.map
          (·.2)).sum) := rfl

/-- The trades of the execution phase of a modification. -/
theorem modifyOrderV2Exec_newTrades (now : Int) (username : String)
    (orderId : Nat) (o1 : Order) (s : MarketState) :
    (modifyOrderV2Exec now username orderId o1 s).newTrades
      = (executeFills o1.side username o1.deliveryStart o1.deliveryEnd now
          (matchLoop o1.side o1.price o1.quantity
            (sortCandidates o1.side ((updateFirstById orderId o1
              s.orders).filter
              (isCandidate o1.side o1.deliveryStart o1.deliveryEnd)))).1
          s).2 := rfl

/-- The post-execution trade ledger of a modification. -/
theorem modifyOrderV2Exec_trades (now : Int) (username : String)
    (orderId : Nat) (o1 : Order) (s : MarketState) :
    (modifyOrderV2Exec now username orderId o1 s).state.trades
      = s.trades ++ (modifyOrderV2Exec now username orderId o1 s).newTrades := by
  unfold modifyOrderV2Exec
  dsimp only
  rw [executeFills_trades]

/-- Replacing an order by one with the replaced identifier preserves the
identifier sequence of the book. -/
theorem map_orderId_updateFirstById (oid : Nat) (o' : Order)
    (ho : o'.orderId = oid) (l : List Order) :
    (updateFirstById oid o' l).map (·.orderId) = l.map (·.orderId) := by
  induction l with
  | nil => rfl
  | cons y ys ih =>
    unfold updateFirstById
    split
    · rename_i hy
      simp only [List.map_cons, ho, hy.1]
    · simp only [List.map_cons, ih]

/-- Decrementing consumed orders preserves the identifier sequence. -/
theorem map_orderId_applyFill (fills : List (Order × Int)) (l : List Order) :
    (l.map (applyFill fills)).map (·.orderId) = l.map (·.orderId) := by
  induction l with
  | nil => rfl
  | cons y ys ih =>
    simp only [List.map_cons, applyFill_orderId, ih]

/-- The post-state identifier counter of the execution phase. -/
theorem placeOrderV2Exec_nextOrderId (now : Int) (username : String)
    (side : Side) (price quantity ds de : Int) (cands : List Order)
    (s : MarketState) :
    (placeOrderV2Exec now username side price quantity ds de cands s).state.nextOrderId
      = s.nextOrderId + 1 := by
  unfold placeOrderV2Exec
  dsimp only
  rw [executeFills_nextOrderId]

/-- A submission preserves well-formedness of the book. -/
theorem placeOrderV2_WF (col : String → Option Int) (now : Int)
    (username : String) (side : Side) (price quantity ds de : Int)
    (s : MarketState) (hWF : WFState s) :
    WFState (placeOrderV2 col now username side price quantity ds de s).state := by
  rcases hres : (placeOrderV2 col now username side price quantity ds de s).result
    with ⟨st, msg⟩ | ⟨o, fq⟩
  · rw [(placeOrderV2_failure_elim col now username side price quantity ds de s
      st msg hres).1]
    exact hWF
  · obtain ⟨h1, h2, h3, heq⟩ := placeOrderV2_success_elim col now username side
      price quantity ds de s o fq hres
    rw [heq]
    constructor
    · rw [placeOrderV2Exec_orders]
      split
      · rw [map_orderId_applyFill]; exact hWF.1
      · rw [List.map_append, map_orderId_applyFill]
        simp only [List.map_cons, List.map_nil]
        rw [List.nodup_append]
        refine ⟨hWF.1, List.nodup_singleton _, ?_⟩
        intro x hx
        simp only [List.mem_singleton]
        obtain ⟨o', ho', rfl⟩ := List.mem_map.mp hx
        have := hWF.2 o' ho'
        simp only [incomingOrder]
        omega
    · intro o' ho'
      rw [placeOrderV2Exec_nextOrderId]
      rw [placeOrderV2Exec_orders] at ho'
      split at ho'
      · obtain ⟨x, hx, rfl⟩ := List.mem_map.mp ho'
        rw [applyFill_orderId]
        have := hWF.2 x hx
        omega
      · rcases List.mem_append.mp ho' with hx | hx
        · obtain ⟨x, hxx, rfl⟩ := List.mem_map.mp hx
          rw [applyFill_orderId]
          have := hWF.2 x hxx
          omega
        · simp only [List.mem_singleton] at hx
          rw [hx]
          simp [incomingOrder]

/-- The post-execution book of a modification. -/
theorem modifyOrderV2Exec_orders (now : Int) (username : String)
    (orderId : Nat) (o1 : Order) (s : MarketState) :
    (modifyOrderV2Exec now username orderId o1 s).state.orders =
      updateFirstById orderId
        (if (matchLoop o1.side o1.price o1.quantity
              (sortCandidates o1.side ((updateFirstById orderId o1
                s.orders).filter
                (isCandidate o1.side o1.deliveryStart o1.deliveryEnd)))).2 ≤ 0
         then { o1 with quantity := 0, active := false, status := .FILLED }
         else { o1 with quantity := (matchLoop o1.side o1.price o1.quantity
            (sortCandidates o1.side ((updateFirstById orderId o1
              s.orders).filter
              (isCandidate o1.side o1.deliveryStart o1.deliveryEnd)))).2 })
        ((updateFirstById orderId o1 s.orders).map
          (applyFill (matchLoop o1.side o1.price o1.quantity
            (sortCandidates o1.side ((updateFirstById orderId o1
              s.orders).filter
              (isCandidate o1.side o1.deliveryStart o1.deliveryEnd)))).1)) := by
  unfold modifyOrderV2Exec
  dsimp only

/-- The modified execution phase leaves the identifier counter alone. -/
theorem modifyOrderV2Exec_nextOrderId (now : Int) (username : String)
    (orderId : Nat) (o1 : Order) (s : MarketState) :
    (modifyOrderV2Exec now username orderId o1 s).state.nextOrderId
      = s.nextOrderId := by
  unfold modifyOrderV2Exec
  dsimp only
  rw [executeFills_nextOrderId]

/-- A modification preserves well-formedness of the book. -/
theorem modifyOrderV2_WF (col : String → Option Int) (now : Int)
    (username : String) (orderId : Nat) (newPrice newQty : Int)
    (s : MarketState) (hWF : WFState s) :
    WFState (modifyOrderV2 col now username orderId newPrice newQty s).state := by
  rcases hres : (modifyOrderV2 col now username orderId newPrice newQty s).result
    with ⟨st, msg⟩ | ⟨o, fq⟩
  · rw [(modifyOrderV2_failure_elim col now username orderId newPrice newQty s
      st msg hres).1]
    exact hWF
  · obtain ⟨o0, hfind, huser, hq, hany, heq⟩ := modifyOrderV2_success_elim col
      now username orderId newPrice newQty s o fq hres
    obtain ⟨hmem, hid, hv2, hact, hqty, hstat⟩ :=
      findActiveV2Order_elim s orderId o0 hfind
    rw [heq]
    have hids : ((modifyOrderV2Exec now username orderId
        (modifiedOrder now newPrice newQty o0) s).state.orders.map (·.orderId))
        = s.orders.map (·.orderId) := by
      rw [modifyOrderV2Exec_orders]
      rw [map_orderId_updateFirstById]
      · rw [map_orderId_applyFill, map_orderId_updateFirstById]
        simp [modifiedOrder, hid]
      · split <;> simp [modifiedOrder, hid]
    constructor
    · rw [hids]; exact hWF.1
    · intro o' ho'
      rw [modifyOrderV2Exec_nextOrderId]
      have : o'.orderId ∈ s.orders.map (·.orderId) := by
        rw [← hids]
        exact List.mem_map_of_mem (·.orderId) ho'
      obtain ⟨x, hx, hxe⟩ := List.mem_map.mp this
      rw [← hxe]
      exact hWF.2 x hx

/-- A cancellation preserves well-formedness of the book. -/
theorem cancelOrderV2_WF (username : String) (orderId : Nat)
    (s : MarketState) (hWF : WFState s) :
    WFState (cancelOrderV2 username orderId s).state := by
  unfold cancelOrderV2
  split
  · exact hWF
  · rename_i o hfind
    have hid : o.orderId = orderId := by
      have := List.find?_some hfind
      simp only [Bool.and_eq_true, beq_iff_eq] at this
      exact this.1
    split
    · exact hWF
    · split
      · exact hWF
      · split
        · exact hWF
        · have hids : (updateFirstById orderId
              ({ o with active := false, status := .CANCELLED, quantity := 0 })
              s.orders).map (·.orderId) = s.orders.map (·.orderId) :=
            map_orderId_updateFirstById orderId _ (by simp [hid]) s.orders
          constructor
          · rw [hids]; exact hWF.1
          · intro o' ho'
            have : o'.orderId ∈ s.orders.map (·.orderId) := by
              rw [← hids]
              exact List.mem_map_of_mem (·.orderId) ho'
            obtain ⟨x, hx, hxe⟩ := List.mem_map.mp this
            rw [← hxe]
            exact hWF.2 x hx

/-- Unfolding of a passed field validation. -/
theorem validateOrderFields_none (price quantity ds de : Int)
    (h : validateOrderFields price quantity ds de = none) :
    0 < quantity ∧ ds % ONE_HOUR_MS = 0 ∧ de % ONE_HOUR_MS = 0 ∧
      ds < de ∧ de - ds = ONE_HOUR_MS := by
  unfold validateOrderFields at h
  split at h
  · simp at h
  · split at h
    · simp at h
    · split at h
      · simp at h
      · split at h
        · simp at h
        · rename_i h1 h2 h3 h4
          push_neg at h1 h2 h3 h4
          exact ⟨by omega, h2.1, h2.2, by omega, by omega⟩

/-- Walking consumers of positive quantity cannot raise a non-positive
simulated remaining above zero. -/
theorem foldl_consume_nonpos (l : List Order)
    (hq : ∀ o ∈ l, 0 < o.quantity) (q : Int) (h : q ≤ 0) :
    l.foldl (fun r o => r - min r o.quantity) q ≤ 0 := by
  induction l generalizing q with
  | nil => simpa
  | cons o t ih =>
    simp only [List.foldl_cons]
    have ho := hq o (List.mem_cons_self o t)
    exact ih (fun x hx => hq x (List.mem_cons_of_mem o hx)) _ (by omega)

/-- The self-match probe of `placeOrderV2` fires exactly when some own
crossing order is actually reached: all earlier candidates cross, belong
to others, and walking them does not exhaust the simulated remaining. -/
theorem selfMatchScan_iff (side : Side) (price : Int) (username : String)
    (l : List Order) (hq : ∀ o ∈ l, 0 < o.quantity) (q : Int) :
    selfMatchScan side price username q l = true ↔
      ReachesSelf side price username q l := by
  induction l generalizing q with
  | nil =>
    constructor
    · intro h
      simp [selfMatchScan] at h
    · rintro ⟨pre, own, post, hdec, -, -, -, -⟩
      exact absurd hdec (by cases pre <;> simp)
  | cons hd t ih =>
    have hqt : ∀ o ∈ t, 0 < o.quantity :=
      fun o ho => hq o (List.mem_cons_of_mem hd ho)
    unfold selfMatchScan
    by_cases h0 : q ≤ 0
    · rw [if_pos h0]
      constructor
      · intro h
        simp at h
      · rintro ⟨pre, own, post, hdec, -, -, -, hfold⟩
        have hqpre : ∀ o ∈ pre, 0 < o.quantity := by
          intro o ho
          apply hq
          rw [hdec]
          exact List.mem_append.mpr (Or.inl ho)
        have := foldl_consume_nonpos pre hqpre q h0
        omega
    · rw [if_neg h0]
      by_cases hc1 : side = Side.BUY ∧ price < hd.price
      · rw [if_pos hc1]
        constructor
        · intro h
          simp at h
        · rintro ⟨pre, own, post, hdec, hu, hcr, hpre, -⟩
          obtain ⟨hs, hlt⟩ := hc1
          cases pre with
          | nil =>
            simp only [List.nil_append, List.cons.injEq] at hdec
            rw [hs] at hcr
            rw [← hdec.1] at hcr
            dsimp [crossesAt] at hcr
            omega
          | cons p pre2 =>
            simp only [List.cons_append, List.cons.injEq] at hdec
            have hp := (hpre p (List.mem_cons_self p pre2)).1
            rw [hs] at hp
            rw [← hdec.1] at hp
            dsimp [crossesAt] at hp
            omega
      · rw [if_neg hc1]
        by_cases hc2 : side = Side.SELL ∧ hd.price < price
        · rw [if_pos hc2]
          constructor
          · intro h
            simp at h
          · rintro ⟨pre, own, post, hdec, hu, hcr, hpre, -⟩
            obtain ⟨hs, hlt⟩ := hc2
            cases pre with
            | nil =>
              simp only [List.nil_append, List.cons.injEq] at hdec
              rw [hs] at hcr
              rw [← hdec.1] at hcr
              dsimp [crossesAt] at hcr
              omega
            | cons p pre2 =>
              simp only [List.cons_append, List.cons.injEq] at hdec
              have hp := (hpre p (List.mem_cons_self p pre2)).1
              rw [hs] at hp
              rw [← hdec.1] at hp
              dsimp [crossesAt] at hp
              omega
        · have hcrhd : crossesAt side price hd := by
            cases side with
            | BUY =>
              simp only [true_and] at hc1
              dsimp [crossesAt]
              omega
            | SELL =>
              simp only [true_and] at hc2
              dsimp [crossesAt]
              omega
          rw [if_neg hc2]
          by_cases hown : hd.user = username
          · rw [if_pos hown]
            constructor
            · intro _
              exact ⟨[], hd, t, rfl, hown, hcrhd, by simp, by simpa using
                (by omega : 0 < q)⟩
            · intro _
              rfl
          · rw [if_neg hown]
            rw [ih hqt]
            constructor
            · rintro ⟨pre, own, post, hdec, hu, hcr, hpre, hfold⟩
              refine ⟨hd :: pre, own, post, by simp [hdec], hu, hcr, ?_, ?_⟩
              · intro o ho
                rcases List.mem_cons.mp ho with heq | ho2
                · rw [heq]
                  exact ⟨hcrhd, hown⟩
                · exact hpre o ho2
              · simpa using hfold
            · rintro ⟨pre, own, post, hdec, hu, hcr, hpre, hfold⟩
              cases pre with
              | nil =>
                simp only [List.nil_append, List.cons.injEq] at hdec
                rw [← hdec.1] at hu
                exact absurd hu hown
              | cons p pre2 =>
                simp only [List.cons_append, List.cons.injEq] at hdec
                refine ⟨pre2, own, post, hdec.2, hu, hcr,
                  fun o ho => hpre o (List.mem_cons_of_mem p ho), ?_⟩
                rw [List.foldl_cons] at hfold
                rw [← hdec.1] at hfold
                exact hfold

/-- The self-match check of `modifyOrderV2` fires on any crossing own
candidate, with no regard to consumption order. -/
theorem modifySelfMatch_iff (side : Side) (newPrice : Int)
    (username : String) (cands : List Order) :
    modifySelfMatch side newPrice username cands = true ↔
      ∃ m ∈ cands,
        (if side = Side.BUY then m.price ≤ newPrice
         else newPrice ≤ m.price) ∧ m.user = username := by
  unfold modifySelfMatch
  rw [List.any_eq_true]
  constructor
  · rintro ⟨m, hm, hp⟩
    simp only [Bool.and_eq_true, decide_eq_true_eq, beq_iff_eq] at hp
    exact ⟨m, hm, hp⟩
  · rintro ⟨m, hm, h1, h2⟩
    refine ⟨m, hm, ?_⟩
    simp only [Bool.and_eq_true, decide_eq_true_eq, beq_iff_eq]
    exact ⟨h1, h2⟩

/-- A submission that reaches the self-match stage is rejected 412 exactly
when the probe fires. -/
theorem placeOrderV2_412_iff (col : String → Option Int) (now : Int)
    (username : String) (side : Side) (price quantity ds de : Int)
    (s : MarketState)
    (hval : validateOrderFields price quantity ds de = none)
    (hwin : checkTradingWindow now ds = none)
    (hnoviol : violatesCollateral col
      { s with orders := s.orders ++
          [tmpOrder username side price quantity ds de] } username = false) :
    (placeOrderV2 col now username side price quantity ds de s).result
        = .failure 412 "Self-match prevented" ↔
      selfMatchScan side price username quantity
        (placeCandidates side ds de s) = true := by
  unfold placeOrderV2
  rw [hval, hwin]
  dsimp only
  rw [if_neg (by simp [hnoviol])]
  split
  · rename_i h
    simp [EngineOutcome.fail, h]
  · rename_i h
    constructor
    · intro hres
      exact absurd hres (by simp [placeOrderV2Exec])
    · intro hscan
      exact absurd hscan h

/-- A modification that reaches the self-match stage is rejected 412
exactly when some own candidate crosses the new price. -/
theorem modifyOrderV2_412_iff (col : String → Option Int) (now : Int)
    (username : String) (orderId : Nat) (newPrice newQty : Int)
    (s : MarketState) (o0 : Order) (hq : 0 < newQty)
    (hfind : findActiveV2Order s orderId = some o0)
    (huser : o0.user = username)
    (hnoviol : violatesCollateral col
      { s with orders := updateFirstById orderId { o0 with price := newPrice, quantity := newQty } s.orders } username = false) :
    (modifyOrderV2 col now username orderId newPrice newQty s).result
        = .failure 412 "Self-match prevented" ↔
      modifySelfMatch o0.side newPrice username
        (sortCandidates o0.side (s.orders.filter
          (fun x => isCandidate o0.side o0.deliveryStart o0.deliveryEnd x &&
            !(x.orderId == orderId)))) = true := by
  unfold modifyOrderV2
  rw [if_neg (by omega), hfind]
  dsimp only
  rw [if_neg (by simp [huser]), if_neg (by simp [hnoviol])]
  split
  · rename_i h
    simp [EngineOutcome.fail, h]
  · rename_i h
    constructor
    · intro hres
      exact absurd hres (by simp [modifyOrderV2Exec])
    · intro hscan
      exact absurd hscan h

/-- A cancellation never records a trade. -/
theorem cancelOrderV2_newTrades (username : String) (orderId : Nat)
    (s : MarketState) : (cancelOrderV2 username orderId s).newTrades = [] := by
  unfold cancelOrderV2
  split
  · rfl
  · split
    · rfl
    · split
      · rfl
      · split
        · rfl
        · rfl

/-- No trade of a submission has buyer equal to seller: the probe rejected
any submission that would consume an own order. -/
theorem place_no_self_trade (col : String → Option Int) (now : Int)
    (username : String) (side : Side) (price quantity ds de : Int)
    (s : MarketState) (t : Trade)
    (ht : t ∈ (placeOrderV2 col now username side price quantity ds de
      s).newTrades) :
    t.buyerId ≠ t.sellerId := by
  cases hres : (placeOrderV2 col now username side price quantity ds de
      s).result with
  | failure st msg =>
    rw [(placeOrderV2_failure_elim col now username side price quantity
      ds de s st msg hres).2] at ht
    simp at ht
  | success o fq =>
    obtain ⟨h1, h2, h3, heq⟩ := placeOrderV2_success_elim col now username
      side price quantity ds de s o fq hres
    rw [heq, placeOrderV2Exec_newTrades] at ht
    obtain ⟨f, hf, -, -, hbuy, hsell, -⟩ := executeFills_mem side username
      ds de now _ _ t ht
    have hqpos : ∀ o2 ∈ placeCandidates side ds de s, 0 < o2.quantity := by
      intro o2 ho2
      rw [placeCandidates, mem_sortCandidates, List.mem_filter] at ho2
      exact ((isCandidate_iff side ds de o2).1 ho2.2).2.2.2.2.2
    have hne := selfMatchScan_matchLoop side price username quantity
      (placeCandidates side ds de s) hqpos h3 f hf
    rw [hbuy, hsell]
    cases side with
    | BUY => simpa using fun h => hne h.symm
    | SELL => simpa using fun h => hne h

/-- No trade of a modification has buyer equal to seller (in a book with
distinct identifiers): a crossing own candidate would have been rejected
by the modification's own check. -/
theorem modify_no_self_trade (col : String → Option Int) (now : Int)
    (username : String) (orderId : Nat) (newPrice newQty : Int)
    (s : MarketState) (hWF : WFState s) (t : Trade)
    (ht : t ∈ (modifyOrderV2 col now username orderId newPrice newQty
      s).newTrades) :
    t.buyerId ≠ t.sellerId := by
  cases hres : (modifyOrderV2 col now username orderId newPrice newQty
      s).result with
  | failure st msg =>
    rw [(modifyOrderV2_failure_elim col now username orderId newPrice
      newQty s st msg hres).2] at ht
    simp at ht
  | success o fq =>
    obtain ⟨o0, hfind, huser, hq, hself, heq⟩ := modifyOrderV2_success_elim
      col now username orderId newPrice newQty s o fq hres
    obtain ⟨ho0mem, ho0id, -, -, -, -⟩ := findActiveV2Order_elim s orderId
      o0 hfind
    rw [heq, modifyOrderV2Exec_newTrades] at ht
    obtain ⟨f, hf, -, -, hbuy, hsell, -⟩ := executeFills_mem _ username
      _ _ now _ _ t ht
    obtain ⟨hmem, -, -, hcross⟩ := matchLoop_fills_mem _ _ _ _ f hf
    rw [mem_sortCandidates, List.mem_filter] at hmem
    dsimp only [modifiedOrder] at hmem hcross hbuy hsell
    have hne : f.1.user ≠ username := by
      intro howner
      rcases mem_updateFirstById hmem.1 with heq1 | hmem1
      · have hside := ((isCandidate_iff _ _ _ _).1 hmem.2).2.2.1
        rw [heq1] at hside
        exact Side.opposite_ne _ hside.symm
      · have hidne : f.1.orderId ≠ orderId := by
          intro hid
          have : f.1 = o0 := eq_of_orderId_eq hWF.1 hmem1 ho0mem
            (by rw [hid, ho0id])
          have hside := ((isCandidate_iff _ _ _ _).1 hmem.2).2.2.1
          rw [this] at hside
          exact Side.opposite_ne _ hside.symm
        have hany : modifySelfMatch o0.side newPrice username
            (sortCandidates o0.side (s.orders.filter
              (fun x => isCandidate o0.side o0.deliveryStart
                o0.deliveryEnd x && !(x.orderId == orderId)))) = true := by
          rw [modifySelfMatch_iff]
          refine ⟨f.1, ?_, ?_, howner⟩
          · rw [mem_sortCandidates, List.mem_filter]
            refine ⟨hmem1, ?_⟩
            simp [hmem.2, hidne]
          · cases hside : o0.side with
            | BUY =>
              rw [if_pos rfl]
              have : crossesAt Side.BUY newPrice f.1 := by rw [← hside]; exact hcross
              exact this
            | SELL =>
              rw [if_neg (by simp)]
              have : crossesAt Side.SELL newPrice f.1 := by rw [← hside]; exact hcross
              exact this
        rw [hany] at hself
        exact absurd hself (by simp)
    rw [hbuy, hsell]
    cases hs2 : o0.side with
    | BUY => simpa [hs2] using fun h => hne h.symm
    | SELL => simpa [hs2] using fun h => hne h

/-- The operation loop preserves well-formedness of the book. -/
theorem runBulkOps_WF (tokens : String → Option String)
    (col : String → Option Int) (now ds de : Int) (ops : List BulkOp)
    (s : MarketState) (buf : List Trade) (hWF : WFState s)
    (out : MarketState × List Trade)
    (h : runBulkOps tokens col now ds de ops s buf = .ok out) :
    WFState out.1 := by
  induction ops generalizing s buf with
  | nil =>
    simp only [runBulkOps, Except.ok.injEq] at h
    rw [← h]
    exact hWF
  | cons op ops ih =>
    unfold runBulkOps at h
    cases op with
    | create tok side price quantity =>
      dsimp only at h
      split at h
      · exact absurd h (by simp)
      · split at h
        · exact absurd h (by simp)
        · exact ih _ _ (placeOrderV2_WF col now _ side price quantity ds de
            s hWF) h
    | modify tok orderId price quantity =>
      dsimp only at h
      split at h
      · exact absurd h (by simp)
      · split at h
        · exact absurd h (by simp)
        · exact ih _ _ (modifyOrderV2_WF col now _ orderId price quantity
            s hWF) h
    | cancel tok orderId =>
      dsimp only at h
      split at h
      · exact absurd h (by simp)
      · split at h
        · exact absurd h (by simp)
        · exact ih _ _ (cancelOrderV2_WF _ orderId s hWF) h

/-- Trades buffered by the operation loop of a well-formed book never have
buyer equal to seller, provided the incoming buffer does not. -/
theorem runBulkOps_no_self (tokens : String → Option String)
    (col : String → Option Int) (now ds de : Int) (ops : List BulkOp)
    (s : MarketState) (buf : List Trade) (hWF : WFState s)
    (hbuf : ∀ t ∈ buf, t.buyerId ≠ t.sellerId)
    (out : MarketState × List Trade)
    (h : runBulkOps tokens col now ds de ops s buf = .ok out) :
    ∀ t ∈ out.2, t.buyerId ≠ t.sellerId := by
  induction ops generalizing s buf with
  | nil =>
    simp only [runBulkOps, Except.ok.injEq] at h
    rw [← h]
    exact hbuf
  | cons op ops ih =>
    unfold runBulkOps at h
    cases op with
    | create tok side price quantity =>
      dsimp only at h
      split at h
      · exact absurd h (by simp)
      · rename_i username htok
        split at h
        · exact absurd h (by simp)
        · refine ih _ _ (placeOrderV2_WF col now username side price
            quantity ds de s hWF) ?_ h
          intro t htb
          rcases List.mem_append.mp htb with h1 | h1
          · exact hbuf t h1
          · exact place_no_self_trade col now username side price quantity
              ds de s t (List.mem_of_mem_filter h1)
    | modify tok orderId price quantity =>
      dsimp only at h
      split at h
      · exact absurd h (by simp)
      · rename_i username htok
        split at h
        · exact absurd h (by simp)
        · refine ih _ _ (modifyOrderV2_WF col now username orderId price
            quantity s hWF) ?_ h
          intro t htb
          rcases List.mem_append.mp htb with h1 | h1
          · exact hbuf t h1
          · exact modify_no_self_trade col now username orderId price
              quantity s hWF t (List.mem_of_mem_filter h1)
    | cancel tok orderId =>
      dsimp only at h
      split at h
      · exact absurd h (by simp)
      · rename_i username htok
        split at h
        · exact absurd h (by simp)
        · refine ih _ _ (cancelOrderV2_WF username orderId s hWF) ?_ h
          intro t htb
          rcases List.mem_append.mp htb with h1 | h1
          · exact hbuf t h1
          · rw [cancelOrderV2_newTrades] at h1
            simp at h1

/-- As `runBulkOps_no_self`, through the contract loop. -/
theorem runBulkContracts_no_self (tokens : String → Option String)
    (col : String → Option Int) (now : Int) (cs : List BulkContract)
    (s : MarketState) (buf : List Trade) (hWF : WFState s)
    (hbuf : ∀ t ∈ buf, t.buyerId ≠ t.sellerId)
    (out : MarketState × List Trade)
    (h : runBulkContracts tokens col now cs s buf = .ok out) :
    ∀ t ∈ out.2, t.buyerId ≠ t.sellerId := by
  induction cs generalizing s buf with
  | nil =>
    simp only [runBulkContracts, Except.ok.injEq] at h
    rw [← h]
    exact hbuf
  | cons c cs ih =>
    unfold runBulkContracts at h
    split at h
    · exact absurd h (by simp)
    · split at h
      · exact absurd h (by simp)
      · split at h
        · exact absurd h (by simp)
        · split at h
          · exact absurd h (by simp)
          · rename_i s1 buf1 hops
            exact ih _ _ (runBulkOps_WF tokens col now c.delivery_start
                c.delivery_end c.operations s buf hWF (s1, buf1) hops)
              (runBulkOps_no_self tokens col now c.delivery_start
                c.delivery_end c.operations s buf hWF hbuf (s1, buf1) hops) h

/-- A modification's staged checks never read the request time: the
rejection or the filled quantity is the same at every `now`. -/
theorem modifyOrderV2_time_indep (col : String → Option Int)
    (now1 now2 : Int) (u : String) (oid : Nat) (p q : Int)
    (s : MarketState) :
    resKindOf (modifyOrderV2 col now1 u oid p q s).result =
      resKindOf (modifyOrderV2 col now2 u oid p q s).result := by
  unfold modifyOrderV2
  by_cases h0 : q ≤ 0
  · rw [if_pos h0, if_pos h0]
  · rw [if_neg h0, if_neg h0]
    cases hfind : findActiveV2Order s oid with
    | none => rfl
    | some o0 =>
      dsimp only
      by_cases hu : o0.user ≠ u
      · rw [if_pos hu, if_pos hu]
      · rw [if_neg hu, if_neg hu]
        by_cases hv : violatesCollateral col
            { s with orders := updateFirstById oid { o0 with price := p, quantity := q } s.orders } u = true
        · rw [if_pos hv, if_pos hv]
        · rw [if_neg hv, if_neg hv]
          by_cases hm : modifySelfMatch o0.side p u
              (sortCandidates o0.side (s.orders.filter
                (fun x => isCandidate o0.side o0.deliveryStart
                  o0.deliveryEnd x && !(x.orderId == oid)))) = true
          · rw [if_pos hm, if_pos hm]
          · rw [if_neg hm, if_neg hm]
            rw [modifyOrderV2Exec_result, modifyOrderV2Exec_result]
            dsimp only [resKindOf, modifiedOrder]
            rw [filter_updateFirst_congr
              (isCandidate o0.side o0.deliveryStart o0.deliveryEnd) oid
              { o0 with price := p, quantity := q, originalQuantity := if o0.originalQuantity < q then q else o0.originalQuantity, createdAt := if p ≠ o0.price ∨ o0.quantity < q then now1 else o0.createdAt }
              { o0 with price := p, quantity := q, originalQuantity := if o0.originalQuantity < q then q else o0.originalQuantity, createdAt := if p ≠ o0.price ∨ o0.quantity < q then now2 else o0.createdAt }
              (isCandidate_same_side _ _ _ _ rfl)
              (isCandidate_same_side _ _ _ _ rfl) s.orders]

/-- A submission appends exactly its new trades to the ledger. -/
theorem placeOrderV2_trades (col : String → Option Int) (now : Int)
    (username : String) (side : Side) (price quantity ds de : Int)
    (s : MarketState) :
    (placeOrderV2 col now username side price quantity ds de s).state.trades
      = s.trades ++
        (placeOrderV2 col now username side price quantity ds de
          s).newTrades := by
  cases hres : (placeOrderV2 col now username side price quantity ds de
      s).result with
  | failure st msg =>
    obtain ⟨h1, h2⟩ := placeOrderV2_failure_elim col now username side price
      quantity ds de s st msg hres
    rw [h1, h2]
    simp
  | success o fq =>
    obtain ⟨-, -, -, heq⟩ := placeOrderV2_success_elim col now username side
      price quantity ds de s o fq hres
    rw [heq]
    exact placeOrderV2Exec_trades now username side price quantity ds de _ s

/-- A modification appends exactly its new trades to the ledger. -/
theorem modifyOrderV2_trades (col : String → Option Int) (now : Int)
    (username : String) (orderId : Nat) (newPrice newQty : Int)
    (s : MarketState) :
    (modifyOrderV2 col now username orderId newPrice newQty s).state.trades
      = s.trades ++
        (modifyOrderV2 col now username orderId newPrice newQty
          s).newTrades := by
  cases hres : (modifyOrderV2 col now username orderId newPrice newQty
      s).result with
  | failure st msg =>
    obtain ⟨h1, h2⟩ := modifyOrderV2_failure_elim col now username orderId
      newPrice newQty s st msg hres
    rw [h1, h2]
    simp
  | success o fq =>
    obtain ⟨o0, -, -, -, -, heq⟩ := modifyOrderV2_success_elim col now
      username orderId newPrice newQty s o fq hres
    rw [heq]
    exact modifyOrderV2Exec_trades now username orderId _ s

/-- A cancellation never touches the ledger. -/
theorem cancelOrderV2_trades (username : String) (orderId : Nat)
    (s : MarketState) :
    (cancelOrderV2 username orderId s).state.trades = s.trades := by
  unfold cancelOrderV2
  split
  · rfl
  · split
    · rfl
    · split
      · rfl
      · split
        · rfl
        · rfl

/-- A rejected submission never reports status 200. -/
theorem placeOrderV2_failure_status (col : String → Option Int) (now : Int)
    (username : String) (side : Side) (price quantity ds de : Int)
    (s : MarketState) (st : Nat) (msg : String)
    (hres : (placeOrderV2 col now username side price quantity ds de s).result
      = .failure st msg) : st ≠ 200 := by
  unfold placeOrderV2 at hres
  split at hres
  · simp [EngineOutcome.fail] at hres
    omega
  · split at hres
    · rename_i r hr
      simp [EngineOutcome.fail] at hres
      rcases checkTradingWindow_cases now ds r hr with h | h <;> omega
    · dsimp only at hres
      split at hres
      · simp [EngineOutcome.fail] at hres
        omega
      · split at hres
        · simp [EngineOutcome.fail] at hres
          omega
        · simp [placeOrderV2Exec] at hres

/-- A rejected modification never reports status 200. -/
theorem modifyOrderV2_failure_status (col : String → Option Int) (now : Int)
    (username : String) (orderId : Nat) (newPrice newQty : Int)
    (s : MarketState) (st : Nat) (msg : String)
    (hres : (modifyOrderV2 col now username orderId newPrice newQty s).result
      = .failure st msg) : st ≠ 200 := by
  unfold modifyOrderV2 at hres
  split at hres
  · simp [EngineOutcome.fail] at hres
    omega
  · split at hres
    · simp [EngineOutcome.fail] at hres
      omega
    · dsimp only at hres
      split at hres
      · simp [EngineOutcome.fail] at hres
        omega
      · split at hres
        · simp [EngineOutcome.fail] at hres
          omega
        · split at hres
          · simp [EngineOutcome.fail] at hres
            omega
          · simp [modifyOrderV2Exec] at hres

/-- A rejected cancellation never reports status 200. -/
theorem cancelOrderV2_failure_status (username : String) (orderId : Nat)
    (s : MarketState) (st : Nat) (msg : String)
    (hres : (cancelOrderV2 username orderId s).result = .failure st msg) :
    st ≠ 200 := by
  unfold cancelOrderV2 at hres
  split at hres
  · simp [EngineOutcome.fail] at hres
    omega
  · split at hres
    · simp [EngineOutcome.fail] at hres
      omega
    · split at hres
      · simp [EngineOutcome.fail] at hres
        omega
      · split at hres
        · simp [EngineOutcome.fail] at hres
          omega
        · simp at hres

/-- The ledger delta of a successful operation loop: the new trades are
appended in production order, and the buffer collects their v2 subset. -/
theorem runBulkOps_trades (tokens : String → Option String)
    (col : String → Option Int) (now ds de : Int) (ops : List BulkOp)
    (s : MarketState) (buf : List Trade) (out : MarketState × List Trade)
    (h : runBulkOps tokens col now ds de ops s buf = .ok out) :
    ∃ d, out.1.trades = s.trades ++ d ∧
      out.2 = buf ++ d.filter (·.isV2) := by
  induction ops generalizing s buf with
  | nil =>
    simp only [runBulkOps, Except.ok.injEq] at h
    rw [← h]
    exact ⟨[], by simp, by simp⟩
  | cons op ops ih =>
    unfold runBulkOps at h
    cases op with
    | create tok side price quantity =>
      dsimp only at h
      split at h
      · exact absurd h (by simp)
      · rename_i username htok
        split at h
        · exact absurd h (by simp)
        · obtain ⟨d2, hd1, hd2⟩ := ih _ _ h
          refine ⟨(placeOrderV2 col now username side price quantity ds de
            s).newTrades ++ d2, ?_, ?_⟩
          · rw [hd1, placeOrderV2_trades, List.append_assoc]
          · rw [hd2, List.filter_append, List.append_assoc]
    | modify tok orderId price quantity =>
      dsimp only at h
      split at h
      · exact absurd h (by simp)
      · rename_i username htok
        split at h
        · exact absurd h (by simp)
        · obtain ⟨d2, hd1, hd2⟩ := ih _ _ h
          refine ⟨(modifyOrderV2 col now username orderId price quantity
            s).newTrades ++ d2, ?_, ?_⟩
          · rw [hd1, modifyOrderV2_trades, List.append_assoc]
          · rw [hd2, List.filter_append, List.append_assoc]
    | cancel tok orderId =>
      dsimp only at h
      split at h
      · exact absurd h (by simp)
      · rename_i username htok
        split at h
        · exact absurd h (by simp)
        · obtain ⟨d2, hd1, hd2⟩ := ih _ _ h
          refine ⟨d2, ?_, ?_⟩
          · rw [hd1, cancelOrderV2_trades]
          · rw [hd2, cancelOrderV2_newTrades]
            simp

/-- A failing operation loop never reports status 200. -/
theorem runBulkOps_error_status (tokens : String → Option String)
    (col : String → Option Int) (now ds de : Int) (ops : List BulkOp)
    (s : MarketState) (buf : List Trade) (e : Nat × String)
    (h : runBulkOps tokens col now ds de ops s buf = .error e) :
    e.1 ≠ 200 := by
  induction ops generalizing s buf with
  | nil => simp [runBulkOps] at h
  | cons op ops ih =>
    unfold runBulkOps at h
    cases op with
    | create tok side price quantity =>
      dsimp only at h
      split at h
      · simp only [Except.error.injEq] at h
        rw [← h]
        omega
      · rename_i username htok
        split at h
        · rename_i st msg hfail
          simp only [Except.error.injEq] at h
          rw [← h]
          exact placeOrderV2_failure_status col now username side price
            quantity ds de s st msg hfail
        · exact ih _ _ h
    | modify tok orderId price quantity =>
      dsimp only at h
      split at h
      · simp only [Except.error.injEq] at h
        rw [← h]
        omega
      · rename_i username htok
        split at h
        · rename_i st msg hfail
          simp only [Except.error.injEq] at h
          rw [← h]
          exact modifyOrderV2_failure_status col now username orderId price
            quantity s st msg hfail
        · exact ih _ _ h
    | cancel tok orderId =>
      dsimp only at h
      split at h
      · simp only [Except.error.injEq] at h
        rw [← h]
        omega
      · rename_i username htok
        split at h
        · rename_i st msg hfail
          simp only [Except.error.injEq] at h
          rw [← h]
          exact cancelOrderV2_failure_status username orderId s st msg hfail
        · exact ih _ _ h

/-- As `runBulkOps_trades`, through the contract loop. -/
theorem runBulkContracts_trades (tokens : String → Option String)
    (col : String → Option Int) (now : Int) (cs : List BulkContract)
    (s : MarketState) (buf : List Trade) (out : MarketState × List Trade)
    (h : runBulkContracts tokens col now cs s buf = .ok out) :
    ∃ d, out.1.trades = s.trades ++ d ∧
      out.2 = buf ++ d.filter (·.isV2) := by
  induction cs generalizing s buf with
  | nil =>
    simp only [runBulkContracts, Except.ok.injEq] at h
    rw [← h]
    exact ⟨[], by simp, by simp⟩
  | cons c cs ih =>
    unfold runBulkContracts at h
    split at h
    · exact absurd h (by simp)
    · split at h
      · exact absurd h (by simp)
      · split at h
        · exact absurd h (by simp)
        · split at h
          · exact absurd h (by simp)
          · rename_i s1 buf1 hops
            obtain ⟨d1, hd1, hb1⟩ := runBulkOps_trades tokens col now
              c.delivery_start c.delivery_end c.operations s buf
              (s1, buf1) hops
            obtain ⟨d2, hd2, hb2⟩ := ih _ _ h
            refine ⟨d1 ++ d2, ?_, ?_⟩
            · rw [hd2]
              dsimp only at hd1
              rw [hd1, List.append_assoc]
            · rw [hb2]
              dsimp only at hb1
              rw [hb1, List.filter_append, List.append_assoc]

/-- A failing contract loop never reports status 200. -/
theorem runBulkContracts_error_status (tokens : String → Option String)
    (col : String → Option Int) (now : Int) (cs : List BulkContract)
    (s : MarketState) (buf : List Trade) (e : Nat × String)
    (h : runBulkContracts tokens col now cs s buf = .error e) :
    e.1 ≠ 200 := by
  induction cs generalizing s buf with
  | nil => simp [runBulkContracts] at h
  | cons c cs ih =>
    unfold runBulkContracts at h
    split at h
    · simp only [Except.error.injEq] at h
      rw [← h]
      omega
    · split at h
      · simp only [Except.error.injEq] at h
        rw [← h]
        omega
      · split at h
        · simp only [Except.error.injEq] at h
          rw [← h]
          omega
        · split at h
          · rename_i e1 hops
            simp only [Except.error.injEq] at h
            rw [← h]
            exact runBulkOps_error_status tokens col now c.delivery_start
              c.delivery_end c.operations s buf e1 hops
          · exact ih _ _ h

/-! ### Round-trip properties of the codec -/

theorem natToBytesBE_length (len n : Nat) :
    (natToBytesBE len n).length = len := by
  induction len generalizing n with
  | zero => rfl
  | succ k ih => simp [natToBytesBE, ih]

theorem bytesToNat_append_one (xs : List Nat) (b : Nat) :
    bytesToNat (xs ++ [b]) = bytesToNat xs * 256 + b := by
  unfold bytesToNat
  rw [List.foldl_append]
  rfl

theorem bytesToNat_natToBytesBE (len n : Nat) (h : n < 256 ^ len) :
    bytesToNat (natToBytesBE len n) = n := by
  induction len generalizing n with
  | zero =>
    simp only [pow_zero] at h
    simp only [natToBytesBE, bytesToNat, List.foldl_nil]
    omega
  | succ k ih =>
    have h2 : n / 256 < 256 ^ k := by
      rw [Nat.div_lt_iff_lt_mul (by norm_num)]
      rw [pow_succ] at h
      exact h
    rw [natToBytesBE, bytesToNat_append_one, ih _ h2]
    omega

/-- The 64-bit integer codec round-trips on every encodable value. -/
theorem decodeInt64_encodeInt (i : Int) (b : List Nat)
    (h : encodeInt i = some b) : decodeInt64 b = i ∧ b.length = 8 := by
  unfold encodeInt at h
  rw [show ((2:Int) ^ 63) = 9223372036854775808 from by norm_num,
    show ((2:Int) ^ 64) = 18446744073709551616 from by norm_num] at h
  split at h
  · rename_i hr
    simp only [Option.some.injEq] at h
    have hlt : i % 18446744073709551616 < 18446744073709551616 :=
      Int.emod_lt_of_pos i (by norm_num)
    have hge : 0 ≤ i % 18446744073709551616 :=
      Int.emod_nonneg i (by norm_num)
    have hbound : (i % 18446744073709551616).toNat < 256 ^ 8 := by
      have h8 : (256 : Nat) ^ 8 = 18446744073709551616 := by norm_num
      omega
    refine ⟨?_, by rw [← h]; exact natToBytesBE_length 8 _⟩
    rw [← h]
    unfold decodeInt64
    rw [bytesToNat_natToBytesBE 8 _ hbound]
    rw [show ((2:Int) ^ 63) = 9223372036854775808 from by norm_num,
      show ((2:Int) ^ 64) = 18446744073709551616 from by norm_num]
    have hcast : (((i % 18446744073709551616).toNat : Nat) : Int)
        = i % 18446744073709551616 := Int.toNat_of_nonneg hge
    have hmod : i % 18446744073709551616 = i ∨
        i % 18446744073709551616 = i + 18446744073709551616 := by
      rcases hr with ⟨hr1, hr2⟩
      rcases Int.lt_or_le i 0 with hi | hi
      · right
        have h1 : (i + 18446744073709551616) % 18446744073709551616
            = i % 18446744073709551616 := by
          have h2 := @Int.add_mul_emod_self_left i 18446744073709551616 1
          rw [mul_one] at h2
          exact h2
        rw [← h1, Int.emod_eq_of_lt (by omega) (by omega)]
      · left
        exact Int.emod_eq_of_lt (by omega) (by omega)
    rcases hmod with hm | hm <;> dsimp only <;> split <;> omega
  · simp at h

/-- The element-type byte written by the encoder is read back. -/
theorem elemTypeOfCode_code (et : ElemType) :
    elemTypeOfCode et.code = some et := by
  cases et <;> rfl

/-- Shape of a successful string encoding. -/
theorem encodeStringV_elim (ver : Nat)
    (hver : ver = VERSION_V1 ∨ ver = VERSION_V2) (s b : List Nat)
    (h : encodeStringV ver s = some b) :
    b = natToBytesBE (lenBytesOf ver) s.length ++ s ∧
      s.length < 256 ^ lenBytesOf ver := by
  unfold encodeStringV at h
  split at h
  · simp at h
  · split at h
    · simp at h
    · rename_i h1 h2
      simp only [Option.some.injEq] at h
      refine ⟨h.symm, ?_⟩
      rcases hver with rfl | rfl
      · simp only [VERSION_V1, lenBytesOf, if_pos rfl] at h1 ⊢
        simp only [not_and, not_lt] at h1
        have := h1 trivial
        norm_num
        omega
      · simp only [VERSION_V2, VERSION_V1, lenBytesOf] at h2 ⊢
        norm_num at h2 ⊢
        omega

/-- Shape of a successful byte-string encoding. -/
theorem encodeBytesV_elim (b out : List Nat)
    (h : encodeBytesV b = some out) :
    out = natToBytesBE 4 b.length ++ b ∧ b.length < 256 ^ 4 := by
  unfold encodeBytesV at h
  split at h
  · simp at h
  · rename_i h1
    simp only [Option.some.injEq] at h
    refine ⟨h.symm, ?_⟩
    norm_num at h1 ⊢
    omega

/-- Shape of a successful list encoding. -/
theorem encodeListV_elim (ver : Nat)
    (hver : ver = VERSION_V1 ∨ ver = VERSION_V2) (et : ElemType)
    (items : List GValue) (b : List Nat)
    (h : encodeListV ver et items = some b) :
    ∃ body, encodeItems ver et items = some body ∧
      b = et.code :: natToBytesBE (lenBytesOf ver) items.length ++ body ∧
      items.length < 256 ^ lenBytesOf ver := by
  unfold encodeListV at h
  split at h
  · simp at h
  · split at h
    · simp at h
    · rename_i h1 h2
      split at h
      · simp at h
      · rename_i body hbody
        simp only [Option.some.injEq] at h
        refine ⟨body, hbody, h.symm, ?_⟩
        rcases hver with rfl | rfl
        · simp only [VERSION_V1, lenBytesOf, if_pos rfl] at h1 ⊢
          simp only [not_and, not_lt] at h1
          have := h1 trivial
          norm_num
          omega
        · simp only [VERSION_V2, VERSION_V1, lenBytesOf] at h2 ⊢
          norm_num at h2 ⊢
          omega

/-- Shape of a successful object encoding. -/
theorem encodeObjectV_elim (ver : Nat) (fields : List (List Nat × GValue))
    (b : List Nat) (h : encodeObjectV ver fields = some b) :
    ∃ fb, encodeFields ver fields = some fb ∧ b = fields.length :: fb := by
  unfold encodeObjectV at h
  split at h
  · simp at h
  · split at h
    · simp at h
    · rename_i fb hfb
      simp only [Option.some.injEq] at h
      exact ⟨fb, hfb, h.symm⟩

/-- Every list has positive size. -/
theorem sizeOf_list_pos {α : Type} [SizeOf α] (l : List α) :
    0 < sizeOf l := by
  cases l <;> simp

mutual

/-- Decoding inverts `encodeFields` on any successful encoding, with any
unconsumed suffix and any sufficient fuel.  The bound `n` drives the
induction over the nested value structure. -/
theorem encodeFields_rt (ver : Nat)
    (hver : ver = VERSION_V1 ∨ ver = VERSION_V2) (n : Nat)
    (fields : List (List Nat × GValue)) (hn : sizeOf fields ≤ n)
    (body : List Nat) (h : encodeFields ver fields = some body)
    (fuel : Nat) (hf : body.length < fuel) (rest : List Nat) :
    decodeFieldsF fuel ver fields.length (body ++ rest)
      = some (fields, rest) := by
  cases n with
  | zero => exact absurd hn (by have := sizeOf_list_pos fields; omega)
  | succ m =>
  cases fields with
  | nil =>
    unfold encodeFields at h
    simp only [Option.some.injEq] at h
    rw [← h]
    simp [decodeFieldsF]
  | cons fv fs =>
    obtain ⟨name, v⟩ := fv
    have hnv : sizeOf v ≤ m := by
      simp only [List.cons.sizeOf_spec, Prod.mk.sizeOf_spec] at hn
      omega
    have hnfs : sizeOf fs ≤ m := by
      simp only [List.cons.sizeOf_spec, Prod.mk.sizeOf_spec] at hn
      omega
    unfold encodeFields at h
    split at h
    · exact absurd h (by simp)
    · rename_i hname
      split at h
      · exact absurd h (by simp)
      · rename_i tb htb
        split at h
        · exact absurd h (by simp)
        · rename_i rb hrb
          simp only [Option.some.injEq] at h
          rw [← h] at hf ⊢
          cases fuel with
          | zero => exact absurd hf (Nat.not_lt_zero _)
          | succ f =>
            simp only [List.length_cons, List.length_append] at hf
            have hval := encodeValue_rt ver hver m v hnv tb.1 tb.2 htb f
              (by omega) (rb ++ rest)
            have hfsr := encodeFields_rt ver hver m fs hnfs rb hrb f
              (by omega) rest
            simp only [List.cons_append, List.append_assoc]
            simp only [List.length_cons, decodeFieldsF, List.headD_cons,
              List.drop_succ_cons, List.drop_zero]
            rw [if_neg (by simp), if_neg (by
              simp only [List.length_append, List.length_cons]
              omega)]
            rw [List.drop_left]
            have hdrop2 : (name ++ tb.1 :: (tb.2 ++ (rb ++ rest))).drop
                (name.length + 1) = tb.2 ++ (rb ++ rest) := by
              rw [show name ++ tb.1 :: (tb.2 ++ (rb ++ rest))
                  = (name ++ [tb.1]) ++ (tb.2 ++ (rb ++ rest)) from by simp]
              exact List.drop_left' (by simp)
            rw [List.headD_cons, hdrop2, hval]
            dsimp only
            rw [hfsr]
            dsimp only
            rw [List.take_left]

/-- Decoding inverts `encodeValue` on any successful encoding. -/
theorem encodeValue_rt (ver : Nat)
    (hver : ver = VERSION_V1 ∨ ver = VERSION_V2) (n : Nat) (v : GValue)
    (hn : sizeOf v ≤ n) (tc : Nat) (vb : List Nat)
    (h : encodeValue ver v = some (tc, vb)) (fuel : Nat)
    (hf : vb.length < fuel) (rest : List Nat) :
    decodeValueF fuel ver tc (vb ++ rest) = some (v, rest) := by
  cases n with
  | zero =>
    exact absurd hn (by cases v <;> simp)
  | succ m =>
  cases fuel with
  | zero => exact absurd hf (Nat.not_lt_zero _)
  | succ f =>
  cases v with
  | vInt i =>
    unfold encodeValue at h
    rw [Option.map_eq_some'] at h
    obtain ⟨b, hb, hfb⟩ := h
    simp only [Prod.mk.injEq] at hfb
    obtain ⟨htc, hvb⟩ := hfb
    obtain ⟨hdec, hlen⟩ := decodeInt64_encodeInt i b hb
    rw [← htc, ← hvb]
    simp only [decodeValueF]
    rw [if_pos trivial]
    rw [if_neg (by simp only [List.length_append, hlen]; omega)]
    rw [List.take_left' hlen, List.drop_left' hlen, hdec]
  | vStr s =>
    unfold encodeValue at h
    rw [Option.map_eq_some'] at h
    obtain ⟨b, hb, hfb⟩ := h
    simp only [Prod.mk.injEq] at hfb
    obtain ⟨htc, hvb⟩ := hfb
    obtain ⟨hshape, hbound⟩ := encodeStringV_elim ver hver s b hb
    rw [← htc, ← hvb, hshape]
    have hntb : (natToBytesBE (lenBytesOf ver) s.length).length
        = lenBytesOf ver := natToBytesBE_length _ _
    simp only [decodeValueF]
    rw [if_neg (by simp [TYPE_STRING, TYPE_INT]), if_pos trivial]
    simp only [List.append_assoc]
    rw [if_neg (by simp only [List.length_append, hntb]; omega)]
    rw [List.take_left' hntb, List.drop_left' hntb,
      bytesToNat_natToBytesBE _ _ hbound]
    rw [if_neg (by simp only [List.length_append]; omega)]
    rw [List.take_left, List.drop_left]
  | vBytes bb =>
    unfold encodeValue at h
    rw [Option.map_eq_some'] at h
    obtain ⟨b, hb, hfb⟩ := h
    simp only [Prod.mk.injEq] at hfb
    obtain ⟨htc, hvb⟩ := hfb
    obtain ⟨hshape, hbound⟩ := encodeBytesV_elim bb b hb
    rw [← htc, ← hvb, hshape]
    have hntb : (natToBytesBE 4 bb.length).length = 4 :=
      natToBytesBE_length _ _
    simp only [decodeValueF]
    rw [if_neg (by simp [TYPE_BYTES, TYPE_INT]),
      if_neg (by simp [TYPE_BYTES, TYPE_STRING]),
      if_neg (by simp [TYPE_BYTES, TYPE_LIST]),
      if_neg (by simp [TYPE_BYTES, TYPE_OBJECT]), if_pos trivial]
    simp only [List.append_assoc]
    rw [if_neg (by simp only [List.length_append, hntb]; omega)]
    rw [List.take_left' hntb, List.drop_left' hntb,
      bytesToNat_natToBytesBE _ _ hbound]
    rw [if_neg (by simp only [List.length_append]; omega)]
    rw [List.take_left, List.drop_left]
  | vList et items =>
    have hni : sizeOf items ≤ m := by
      simp only [GValue.vList.sizeOf_spec] at hn
      omega
    unfold encodeValue at h
    rw [Option.map_eq_some'] at h
    obtain ⟨b, hb, hfb⟩ := h
    simp only [Prod.mk.injEq] at hfb
    obtain ⟨htc, hvb⟩ := hfb
    obtain ⟨ibody, hitems, hshape, hbound⟩ :=
      encodeListV_elim ver hver et items b hb
    rw [← htc, ← hvb, hshape]
    rw [← hvb, hshape] at hf
    have hntb : (natToBytesBE (lenBytesOf ver) items.length).length
        = lenBytesOf ver := natToBytesBE_length _ _
    simp only [List.length_cons, List.length_append, hntb] at hf
    have hitr := encodeItems_rt ver hver m et items hni ibody hitems f
      (by omega) rest
    simp only [decodeValueF]
    rw [if_neg (by simp [TYPE_LIST, TYPE_INT]),
      if_neg (by simp [TYPE_LIST, TYPE_STRING]), if_pos trivial]
    simp only [List.cons_append, List.append_assoc]
    rw [if_neg (by
      simp only [List.length_cons, List.length_append, hntb]
      omega)]
    rw [List.headD_cons, elemTypeOfCode_code]
    dsimp only
    rw [show (1 : Nat) + lenBytesOf ver = lenBytesOf ver + 1 from by omega]
    simp only [List.drop_succ_cons, List.drop_zero]
    rw [List.drop_left' hntb, List.take_left' hntb,
      bytesToNat_natToBytesBE _ _ hbound]
    rw [hitr]
  | vObj fl =>
    have hnf : sizeOf fl ≤ m := by
      simp only [GValue.vObj.sizeOf_spec] at hn
      omega
    unfold encodeValue at h
    rw [Option.map_eq_some'] at h
    obtain ⟨b, hb, hfb⟩ := h
    simp only [Prod.mk.injEq] at hfb
    obtain ⟨htc, hvb⟩ := hfb
    obtain ⟨fb, hfb2, hshape⟩ := encodeObjectV_elim ver fl b hb
    rw [← htc, ← hvb, hshape]
    rw [← hvb, hshape] at hf
    simp only [List.length_cons] at hf
    have hfr := encodeFields_rt ver hver m fl hnf fb hfb2 f (by omega) rest
    simp only [decodeValueF]
    rw [if_neg (by simp [TYPE_OBJECT, TYPE_INT]),
      if_neg (by simp [TYPE_OBJECT, TYPE_STRING]),
      if_neg (by simp [TYPE_OBJECT, TYPE_LIST]), if_pos trivial]
    simp only [List.cons_append]
    rw [if_neg (by simp)]
    rw [List.headD_cons, List.drop_succ_cons, List.drop_zero, hfr]

/-- Decoding inverts the element loop on any successful encoding. -/
theorem encodeItems_rt (ver : Nat)
    (hver : ver = VERSION_V1 ∨ ver = VERSION_V2) (n : Nat) (et : ElemType)
    (items : List GValue) (hn : sizeOf items ≤ n) (body : List Nat)
    (h : encodeItems ver et items = some body) (fuel : Nat)
    (hf : body.length < fuel) (rest : List Nat) :
    decodeItemsF fuel ver et items.length (body ++ rest)
      = some (items, rest) := by
  cases n with
  | zero => exact absurd hn (by have := sizeOf_list_pos items; omega)
  | succ m =>
  cases items with
  | nil =>
    unfold encodeItems at h
    simp only [Option.some.injEq] at h
    rw [← h]
    simp [decodeItemsF]
  | cons x xs =>
  have hnxs : sizeOf xs ≤ m := by
    simp only [List.cons.sizeOf_spec] at hn
    omega
  cases fuel with
  | zero => exact absurd hf (Nat.not_lt_zero _)
  | succ f =>
  unfold encodeItems at h
  cases et with
  | etInt =>
    cases x with
    | vInt i =>
      dsimp only at h
      split at h
      · rename_i b restb hb hrestb
        simp only [Option.some.injEq] at h
        rw [← h] at hf ⊢
        obtain ⟨hdec, hlen⟩ := decodeInt64_encodeInt i b hb
        simp only [List.length_append, hlen] at hf
        have hxs := encodeItems_rt ver hver m .etInt xs hnxs restb hrestb f
          (by omega) rest
        simp only [List.length_cons, decodeItemsF, List.append_assoc]
        rw [if_neg (by simp only [List.length_append, hlen]; omega)]
        rw [List.drop_left' hlen, hxs, List.take_left' hlen, hdec]
      · exact absurd h (by simp)
    | vStr s => simp at h
    | vBytes bb => simp at h
    | vList et2 its => simp at h
    | vObj fl => simp at h
  | etStr =>
    cases x with
    | vStr s =>
      dsimp only at h
      split at h
      · rename_i b restb hb hrestb
        simp only [Option.some.injEq] at h
        rw [← h] at hf ⊢
        obtain ⟨hshape, hbound⟩ := encodeStringV_elim ver hver s b hb
        have hntb : (natToBytesBE (lenBytesOf ver) s.length).length
            = lenBytesOf ver := natToBytesBE_length _ _
        rw [hshape] at hf ⊢
        simp only [List.length_append, hntb] at hf
        have hlb : 2 ≤ lenBytesOf ver := by
          rcases hver with rfl | rfl <;> norm_num [lenBytesOf, VERSION_V1,
            VERSION_V2]
        have hxs := encodeItems_rt ver hver m .etStr xs hnxs restb hrestb f
          (by omega) rest
        simp only [List.length_cons, decodeItemsF, List.append_assoc]
        rw [if_neg (by simp only [List.length_append, hntb]; omega)]
        rw [List.take_left' hntb, List.drop_left' hntb,
          bytesToNat_natToBytesBE _ _ hbound]
        rw [if_neg (by simp only [List.length_append]; omega)]
        rw [List.drop_left, hxs, List.take_left]
      · exact absurd h (by simp)
    | vInt i => simp at h
    | vBytes bb => simp at h
    | vList et2 its => simp at h
    | vObj fl => simp at h
  | etObj =>
    cases x with
    | vObj fl =>
      have hnfl : sizeOf fl ≤ m := by
        simp only [List.cons.sizeOf_spec, GValue.vObj.sizeOf_spec] at hn
        omega
      dsimp only at h
      split at h
      · rename_i b restb hb hrestb
        simp only [Option.some.injEq] at h
        rw [← h] at hf ⊢
        obtain ⟨fb, hfb2, hshape⟩ := encodeObjectV_elim ver fl b hb
        rw [hshape] at hf ⊢
        simp only [List.length_cons, List.length_append] at hf
        have hflds := encodeFields_rt ver hver m fl hnfl fb hfb2 f
          (by omega) (restb ++ rest)
        have hxs := encodeItems_rt ver hver m .etObj xs hnxs restb hrestb f
          (by omega) rest
        simp only [List.length_cons, decodeItemsF, List.cons_append,
          List.append_assoc]
        rw [if_neg (by simp)]
        rw [List.headD_cons, List.drop_succ_cons, List.drop_zero, hflds]
        dsimp only
        rw [hxs]
      · exact absurd h (by simp)
    | vInt i => simp at h
    | vStr s => simp at h
    | vBytes bb => simp at h
    | vList et2 its => simp at h

end

/-- The bound `lenBytesOf` bytes can carry. -/
theorem lenBytesOf_bound (ver : Nat) :
    (ver = VERSION_V1 → 256 ^ lenBytesOf ver = 65536) ∧
    (ver = VERSION_V2 → 256 ^ lenBytesOf ver = 4294967296) := by
  constructor
  · intro h
    rw [h]
    norm_num [lenBytesOf, VERSION_V1]
  · intro h
    rw [h]
    norm_num [lenBytesOf, VERSION_V2, VERSION_V1]

/-- Decoding inverts `encodeMessage` on any successful encoding. -/
theorem decodeMessage_encodeMessage (fields : List (List Nat × GValue))
    (ver : Nat) (b : List Nat) (henc : encodeMessage fields ver = some b) :
    decodeMessage b = some fields := by
  unfold encodeMessage at henc
  split at henc
  · exact absurd henc (by simp)
  · rename_i hver0
    have hver : ver = VERSION_V1 ∨ ver = VERSION_V2 := by
      rcases not_and_or.mp hver0 with h | h
      · exact Or.inl (not_not.mp h)
      · exact Or.inr (not_not.mp h)
    have hlV1 : ver = VERSION_V1 → lenBytesOf ver = 2 := by
      intro h
      rw [h]
      simp [lenBytesOf]
    have hlV2 : ver = VERSION_V2 → lenBytesOf ver = 4 := by
      intro h
      rw [h]
      norm_num [lenBytesOf, VERSION_V1, VERSION_V2]
    have hl2 : 2 ≤ lenBytesOf ver := by
      rcases hver with h | h
      · rw [hlV1 h]
      · rw [hlV2 h]
        norm_num
    split at henc
    · exact absurd henc (by simp)
    · rename_i hcount
      split at henc
      · exact absurd henc (by simp)
      · rename_i body hbody
        dsimp only at henc
        have hhl : (if ver = VERSION_V1 then 4 else 6)
            = 2 + lenBytesOf ver := by
          rcases hver with h | h
          · rw [hlV1 h, if_pos h]
          · rw [hlV2 h, if_neg (by rw [h]; norm_num [VERSION_V1,
              VERSION_V2])]
        rw [hhl] at henc
        split at henc
        · exact absurd henc (by simp)
        · split at henc
          · exact absurd henc (by simp)
          · rename_i hcap1 hcap2
            simp only [Option.some.injEq] at henc
            have hntb : (natToBytesBE (lenBytesOf ver)
                (2 + lenBytesOf ver + body.length)).length
                = lenBytesOf ver := natToBytesBE_length _ _
            have hbound : 2 + lenBytesOf ver + body.length
                < 256 ^ lenBytesOf ver := by
              rcases hver with h | h
              · have hcap : ¬(65535 < 2 + lenBytesOf ver + body.length) :=
                  fun hlt => hcap1 ⟨h, hlt⟩
                rw [hlV1 h] at hcap ⊢
                norm_num
                omega
              · have hcap : ¬(4294967295 < 2 + lenBytesOf ver
                    + body.length) := fun hlt => hcap2 ⟨h, hlt⟩
                rw [hlV2 h] at hcap ⊢
                norm_num
                omega
            rw [← henc]
            unfold decodeMessage
            simp only [List.cons_append]
            rw [if_neg (by
              simp only [List.length_cons, List.length_append, hntb]
              omega)]
            try dsimp only
            simp only [List.headD_cons, List.drop_succ_cons,
              List.drop_zero]
            rw [if_neg hver0]
            rw [dif_neg (by
              rintro ⟨h2, hlen6⟩
              rw [hlV2 h2] at hlen6 hntb
              simp only [List.length_cons, List.length_append, hntb]
                at hlen6
              omega)]
            try dsimp only
            rw [List.take_left' hntb, bytesToNat_natToBytesBE _ _ hbound]
            rw [if_neg (by
              simp only [List.length_cons, List.length_append, hntb]
              omega)]
            rw [hhl]
            rw [show ver :: fields.length :: (natToBytesBE (lenBytesOf ver)
                (2 + lenBytesOf ver + body.length) ++ body)
              = (ver :: fields.length :: natToBytesBE (lenBytesOf ver)
                (2 + lenBytesOf ver + body.length)) ++ body from by simp]
            rw [List.drop_left' (by
              simp only [List.length_cons, hntb]
              omega)]
            have hrt := encodeFields_rt ver hver (sizeOf fields) fields
              le_rfl body hbody ((ver :: fields.length ::
                natToBytesBE (lenBytesOf ver)
                  (2 + lenBytesOf ver + body.length)) ++ body).length
              (by
                simp only [List.length_cons, List.length_append, hntb]
                omega) []
            rw [List.append_nil] at hrt
            rw [hrt]
            simp

/-! ### The claims -/

/-- C3: for any single submission accepted by `placeOrderV2`, the sum of
the quantities of the trades it produced is at most the incoming quantity,
and equals the incoming quantity exactly when the final status of the
returned order is FILLED. -/
theorem C3_place_conservation (col : String → Option Int) (now : Int)
    (username : String) (side : Side) (price quantity ds de : Int)
    (s : MarketState) (o : Order) (fq : Int)
    (hres : (placeOrderV2 col now username side price quantity ds de s).result
      = .success o fq) :
    (((placeOrderV2 col now username side price quantity ds de s).newTrades.map
        (·.quantity)).sum ≤ quantity) ∧
    ((((placeOrderV2 col now username side price quantity ds de s).newTrades.map
        (·.quantity)).sum = quantity) ↔ o.status = .FILLED) := by
  obtain ⟨h1, h2, h3, heq⟩ := placeOrderV2_success_elim col now username side
    price quantity ds de s o fq hres
  have hqpos := (validateOrderFields_none price quantity ds de h1).1
  rw [heq] at hres ⊢
  rw [placeOrderV2Exec_newTrades, executeFills_quantities]
  rw [placeOrderV2Exec_result] at hres
  have hrem := matchLoop_sum side price quantity
    (placeCandidates side ds de s)
  have hnn := matchLoop_rem_nonneg side price quantity
    (placeCandidates side ds de s) (by omega)
  obtain ⟨ho, hfq⟩ : (if (matchLoop side price quantity
      (placeCandidates side ds de s)).2 ≤ 0 then _ else _) = o ∧
      ((matchLoop side price quantity
        (placeCandidates side ds de s)).1.map (·.2)).sum = fq := by
    have := hres
    exact ⟨by injection this, by injection this⟩
  constructor
  · omega
  · constructor
    · intro hsum
      rw [← ho]
      rw [if_pos (by omega)]
    · intro hst
      by_contra hne
      rw [← ho] at hst
      rw [if_neg (by omega)] at hst
      simp [incomingOrder] at hst

/-- Witness for C3: a concrete partially filled submission. -/
theorem C3_place_conservation_witness :
    (((placeOrderV2 wColUnlimited wNow "B" .BUY 150 1200 wContractStart
        wContractEnd wState1).newTrades.map (·.quantity)).sum ≤ 1200) ∧
    ((((placeOrderV2 wColUnlimited wNow "B" .BUY 150 1200 wContractStart
        wContractEnd wState1).newTrades.map (·.quantity)).sum = 1200) ↔
      wResidualB.status = .FILLED) :=
  C3_place_conservation wColUnlimited wNow "B" .BUY 150 1200 wContractStart
    wContractEnd wState1 wResidualB 500 (by decide)

/-- C4: counterexample. Buying 1200 at price 150 against a resting sell
of 500 at 150 matches 500 > 0 immediately and rests a residual of 700,
yet the submission result reports status ACTIVE, not FILLED as the claim
states for partially matched submissions. -/
theorem C4_status_counterexample :
    (placeOrderV2 wColUnlimited wNow "B" .BUY 150 1200 wContractStart
        wContractEnd wState1).result = .success wResidualB 500 ∧
    (0 : Int) < 500 ∧ (500 : Int) < 1200 ∧
    wResidualB.status = .ACTIVE ∧ wResidualB.status ≠ .FILLED := by
  decide

/-- C4 (amended): the result of an accepted v2 submission reports status
FILLED exactly when the incoming quantity was fully matched; whenever a
residual portion rests in the book the order is reported ACTIVE, even if
part of the incoming quantity matched immediately. -/
theorem C4_place_status (col : String → Option Int) (now : Int)
    (username : String) (side : Side) (price quantity ds de : Int)
    (s : MarketState) (o : Order) (fq : Int)
    (hres : (placeOrderV2 col now username side price quantity ds de s).result
      = .success o fq) :
    (o.status = .FILLED ↔ fq = quantity) ∧
    (fq ≠ quantity → o.status = .ACTIVE) := by
  obtain ⟨h1, h2, h3, heq⟩ := placeOrderV2_success_elim col now username side
    price quantity ds de s o fq hres
  have hqpos := (validateOrderFields_none price quantity ds de h1).1
  rw [heq] at hres
  rw [placeOrderV2Exec_result] at hres
  have hrem := matchLoop_sum side price quantity (placeCandidates side ds de s)
  have hnn := matchLoop_rem_nonneg side price quantity
    (placeCandidates side ds de s) (by omega)
  obtain ⟨ho, hfq⟩ : (if (matchLoop side price quantity
      (placeCandidates side ds de s)).2 ≤ 0 then _ else _) = o ∧
      ((matchLoop side price quantity
        (placeCandidates side ds de s)).1.map (·.2)).sum = fq := by
    have := hres
    exact ⟨by injection this, by injection this⟩
  constructor
  · constructor
    · intro hst
      by_contra hne
      rw [← ho] at hst
      rw [if_neg (by omega)] at hst
      simp [incomingOrder] at hst
    · intro hsum
      rw [← ho, if_pos (by omega)]
  · intro hne
    rw [← ho, if_neg (by omega)]
    simp [incomingOrder]

/-- C1: price-time priority of consumption.  For a well-formed book and
any two crossing-eligible candidates `a`, `b` of a v2 submission with `a`
of strictly better price-time priority than `b` (for a BUY: lower sell
price, or equal price and earlier arrival; dually for a SELL), if the
post-submission book shows `b` lost quantity, then `a` was consumed in
full and marked FILLED. -/
theorem C1_price_time_priority (col : String → Option Int) (now : Int)
    (username : String) (side : Side) (price quantity ds de : Int)
    (s : MarketState) (hWF : WFState s) (a b a2 b2 : Order)
    (ha : a ∈ s.orders) (hb : b ∈ s.orders)
    (hca : isCandidate side ds de a = true)
    (hcb : isCandidate side ds de b = true)
    (hab : candLT side a b)
    (ha2 : a2 ∈ (placeOrderV2 col now username side price quantity ds de
      s).state.orders)
    (hb2 : b2 ∈ (placeOrderV2 col now username side price quantity ds de
      s).state.orders)
    (hida : a2.orderId = a.orderId) (hidb : b2.orderId = b.orderId)
    (hcons : b2.quantity < b.quantity) :
    a2.quantity = 0 ∧ a2.status = .FILLED := by
  cases hres : (placeOrderV2 col now username side price quantity ds de
      s).result with
  | failure st msg =>
    exfalso
    rw [(placeOrderV2_failure_elim col now username side price quantity
      ds de s st msg hres).1] at hb2
    have := eq_of_orderId_eq hWF.1 hb2 hb hidb
    rw [this] at hcons
    omega
  | success o fq =>
    obtain ⟨h1, h2, h3, heq⟩ := placeOrderV2_success_elim col now username
      side price quantity ds de s o fq hres
    rw [heq] at ha2 hb2
    have candN := placeCandidates_ids_nodup side ds de s hWF.1
    have fillsN := matchLoop_fills_ids_nodup side price quantity
      (placeCandidates side ds de s) candN
    obtain ⟨xb, hxb, hfb⟩ := placeExec_mem_of_old now username side price
      quantity ds de (placeCandidates side ds de s) s b2 hb2
      (by rw [hidb]; exact hWF.2 b hb)
    have hxb_id : xb.orderId = b.orderId := by
      rw [← hidb, hfb, applyFill_orderId]
    have hxbb : xb = b := eq_of_orderId_eq hWF.1 hxb hb hxb_id
    rw [hxbb] at hfb
    obtain ⟨f, hfmem, hfid⟩ :
        ∃ f ∈ (matchLoop side price quantity
          (placeCandidates side ds de s)).1, f.1.orderId = b.orderId := by
      by_contra hno
      push_neg at hno
      rw [applyFill_of_none _ b hno] at hfb
      rw [hfb] at hcons
      omega
    have hf1 : f.1 ∈ s.orders := by
      have := (matchLoop_fills_mem side price quantity _ f hfmem).1
      rw [placeCandidates, mem_sortCandidates, List.mem_filter] at this
      exact this.1
    have hf1b : f.1 = b := eq_of_orderId_eq hWF.1 hf1 hb hfid
    have hbfill : (b, f.2) ∈ (matchLoop side price quantity
        (placeCandidates side ds de s)).1 := by
      rw [← hf1b]
      exact hfmem
    have hamem : a ∈ placeCandidates side ds de s := by
      rw [placeCandidates, mem_sortCandidates, List.mem_filter]
      exact ⟨ha, hca⟩
    have hqpos : ∀ o3 ∈ placeCandidates side ds de s, 0 < o3.quantity := by
      intro o3 ho3
      rw [placeCandidates, mem_sortCandidates, List.mem_filter] at ho3
      exact ((isCandidate_iff side ds de o3).1 ho3.2).2.2.2.2.2
    have hafill := matchLoop_priority side price quantity
      (placeCandidates side ds de s) hqpos
      (sortCandidates_pairwise side _) a b f.2 hamem hab hbfill
    obtain ⟨xa, hxa, hfa⟩ := placeExec_mem_of_old now username side price
      quantity ds de (placeCandidates side ds de s) s a2 ha2
      (by rw [hida]; exact hWF.2 a ha)
    have hxa_id : xa.orderId = a.orderId := by
      rw [← hida, hfa, applyFill_orderId]
    have hxaa : xa = a := eq_of_orderId_eq hWF.1 hxa ha hxa_id
    rw [hxaa] at hfa
    rw [applyFill_of_fill _ a a.quantity fillsN hafill] at hfa
    rw [if_pos (by omega)] at hfa
    rw [hfa]
    exact ⟨rfl, rfl⟩

/-- Witness for C1: of two same-priced resting sells, a buy for 600
consumes the earlier-arrived 500-lot in full before touching the later
300-lot. -/
theorem C1_price_time_priority_witness :
    wSellAFilled.quantity = 0 ∧ wSellAFilled.status = .FILLED :=
  C1_price_time_priority wColUnlimited wNow "B" .BUY 150 600 wContractStart
    wContractEnd wState2 ⟨by decide, by decide⟩ wSellA wSellA2 wSellAFilled
    wSellA2Part
    (by decide) (by decide) (by decide) (by decide) (by decide) (by decide)
    (by decide) (by decide) (by decide) (by decide)

/-- C5: collateral admission.  With a finite limit `C`, a submission is
accepted only when the potential balance of the owner — the realized
balance plus the signed exposure of every ACTIVE v2 order of the owner,
simulated with the new order resting at full quantity — is at least `-C`;
when that potential drops below `-C` (and the earlier checks pass) the
request is rejected 402; a modification is checked the same way with the
order hypothetically at the new price and quantity; an unlimited account
is never rejected 402. -/
theorem C5_collateral_admission (col : String → Option Int) (now : Int)
    (username : String) (side : Side) (price quantity ds de : Int)
    (orderId : Nat) (newPrice newQty : Int) (s : MarketState) (C : Int) :
    (col username = some C →
      ∀ o fq, (placeOrderV2 col now username side price quantity ds de
          s).result = .success o fq →
        -C ≤ computePotentialBalance { s with orders := s.orders ++ [tmpOrder username side price quantity ds de] } username) ∧
    (col username = some C →
      validateOrderFields price quantity ds de = none →
      checkTradingWindow now ds = none →
      computePotentialBalance { s with orders := s.orders ++ [tmpOrder username side price quantity ds de] } username < -C →
      (placeOrderV2 col now username side price quantity ds de s).result
        = .failure 402 "Insufficient collateral") ∧
    (col username = none →
      ∀ msg, (placeOrderV2 col now username side price quantity ds de
        s).result ≠ .failure 402 msg) ∧
    (col username = some C →
      ∀ o fq, (modifyOrderV2 col now username orderId newPrice newQty
          s).result = .success o fq →
        ∃ o0, findActiveV2Order s orderId = some o0 ∧
          -C ≤ computePotentialBalance { s with orders := updateFirstById orderId { o0 with price := newPrice, quantity := newQty } s.orders } username) ∧
    (col username = some C → 0 < newQty →
      ∀ o0, findActiveV2Order s orderId = some o0 → o0.user = username →
        computePotentialBalance { s with orders := updateFirstById orderId { o0 with price := newPrice, quantity := newQty } s.orders } username < -C →
        (modifyOrderV2 col now username orderId newPrice newQty s).result
          = .failure 402 "Insufficient collateral") ∧
    (col username = none →
      ∀ msg, (modifyOrderV2 col now username orderId newPrice newQty
        s).result ≠ .failure 402 msg) ∧
    computePotentialBalance { s with orders := s.orders ++ [tmpOrder username side price quantity ds de] } username
      = mapGet s.balances username +
        (((s.orders ++ [tmpOrder username side price quantity ds de]).filter
          (exposureRelevant username)).map signedExposure).sum := by
  refine ⟨?_, ?_, ?_, ?_, ?_, ?_, computePotentialBalance_eq _ _⟩
  · intro hc o fq hres
    exact (violatesCollateral_false_iff col _ username C hc).1
      (placeOrderV2_success_noviol col now username side price quantity
        ds de s o fq hres)
  · intro hc hval hwin hlt
    refine placeOrderV2_402_of_viol col now username side price quantity
      ds de s hval hwin ?_
    unfold violatesCollateral
    rw [hc]
    simpa using hlt
  · intro hc msg
    exact placeOrderV2_unlimited_no402 col now username side price quantity
      ds de s hc msg
  · intro hc o fq hres
    obtain ⟨o0, hfind, hnv⟩ := modifyOrderV2_success_noviol col now username
      orderId newPrice newQty s o fq hres
    exact ⟨o0, hfind, (violatesCollateral_false_iff col _ username C hc).1 hnv⟩
  · intro hc hq o0 hfind huser hlt
    refine modifyOrderV2_402_of_viol col now username orderId newPrice
      newQty s o0 hq hfind huser ?_
    unfold violatesCollateral
    rw [hc]
    simpa using hlt
  · intro hc msg
    exact modifyOrderV2_unlimited_no402 col now username orderId newPrice
      newQty s hc msg

/-- C6: batch atomicity.  A batch whose processing fails restores both
snapshots — the post-batch state (order book, ledger and balances) equals
the pre-batch state — and broadcasts nothing; a successful batch appends
its trades to the ledger in production order and broadcasts exactly their
v2 subset. -/
theorem C6_batch_atomicity (tokens : String → Option String)
    (col : String → Option Int) (now : Int) (contracts : List BulkContract)
    (s : MarketState) :
    ((processBulk tokens col now contracts s).status ≠ 200 →
      (processBulk tokens col now contracts s).state = s ∧
      (processBulk tokens col now contracts s).broadcasts = []) ∧
    ((processBulk tokens col now contracts s).status = 200 →
      ∃ d, (processBulk tokens col now contracts s).state.trades
          = s.trades ++ d ∧
        (processBulk tokens col now contracts s).broadcasts
          = d.filter (·.isV2)) := by
  unfold processBulk
  cases hrun : runBulkContracts tokens col now contracts s [] with
  | error e =>
    refine ⟨fun _ => ⟨rfl, rfl⟩, fun h200 => ?_⟩
    exact absurd h200 (runBulkContracts_error_status tokens col now
      contracts s [] e hrun)
  | ok out =>
    obtain ⟨s1, buf1⟩ := out
    refine ⟨fun hne => absurd rfl hne, fun _ => ?_⟩
    obtain ⟨d, hd, hb⟩ := runBulkContracts_trades tokens col now contracts
      s [] (s1, buf1) hrun
    exact ⟨d, hd, by simpa using hb⟩

/-- Witness for C6: a successful one-operation batch appends its trade
and broadcasts it. -/
theorem C6_batch_atomicity_witness :
    ∃ d, (processBulk wTokens wColUnlimited wNow wBatch wState1).state.trades
        = wState1.trades ++ d ∧
      (processBulk wTokens wColUnlimited wNow wBatch wState1).broadcasts
        = d.filter (·.isV2) :=
  (C6_batch_atomicity wTokens wColUnlimited wNow wBatch wState1).2
    (by decide)

/-- C9: codec round trip.  Decoding inverts encoding for every field list
the encoder accepts, under both wire versions; in particular a message
encoded as v1 is decoded successfully by the v2-capable decoder. -/
theorem C9_codec_round_trip (fields : List (List Nat × GValue))
    (b1 b2 : List Nat) :
    (encodeMessage fields VERSION_V1 = some b1 →
      decodeMessage b1 = some fields) ∧
    (encodeMessage fields VERSION_V2 = some b2 →
      decodeMessage b2 = some fields) :=
  ⟨decodeMessage_encodeMessage fields VERSION_V1 b1,
    decodeMessage_encodeMessage fields VERSION_V2 b2⟩

/-- Witness for C9: a one-field integer message round-trips under both
wire versions. -/
theorem C9_codec_round_trip_witness :
    decodeMessage [1, 1, 0, 15, 1, 110, 1, 0, 0, 0, 0, 0, 0, 0, 42]
        = some [([110], GValue.vInt 42)] ∧
    decodeMessage [2, 1, 0, 0, 0, 17, 1, 110, 1, 0, 0, 0, 0, 0, 0, 0, 42]
        = some [([110], GValue.vInt 42)] :=
  ⟨(C9_codec_round_trip [([110], GValue.vInt 42)]
      [1, 1, 0, 15, 1, 110, 1, 0, 0, 0, 0, 0, 0, 0, 42]
      [2, 1, 0, 0, 0, 17, 1, 110, 1, 0, 0, 0, 0, 0, 0, 0, 42]).1
    (by simp +decide [encodeMessage, encodeFields, encodeValue, encodeInt,
      natToBytesBE, lenBytesOf, VERSION_V1, VERSION_V2, TYPE_INT]),
   (C9_codec_round_trip [([110], GValue.vInt 42)]
      [1, 1, 0, 15, 1, 110, 1, 0, 0, 0, 0, 0, 0, 0, 42]
      [2, 1, 0, 0, 0, 17, 1, 110, 1, 0, 0, 0, 0, 0, 0, 0, 42]).2
    (by simp +decide [encodeMessage, encodeFields, encodeValue, encodeInt,
      natToBytesBE, lenBytesOf, VERSION_V1, VERSION_V2, TYPE_INT])⟩

/-- C10: a modification never consults the contract's trading window —
its rejection-or-filled-quantity outcome is the same at every request
time — and concretely, a modification of an ACTIVE v2 order succeeds and
produces a match both after the close of trading (where a fresh
submission of the same order is rejected 451) and before the window opens
(where a fresh submission is rejected 425). -/
theorem C10_modify_ignores_window (col : String → Option Int) (u : String)
    (oid : Nat) (p q : Int) (s : MarketState) :
    (∀ now1 now2, resKindOf (modifyOrderV2 col now1 u oid p q s).result =
      resKindOf (modifyOrderV2 col now2 u oid p q s).result) ∧
    resKindOf (modifyOrderV2 wColUnlimited wNowLate "B" 5 150 5
      wStateMod2).result = .inr 5 ∧
    (modifyOrderV2 wColUnlimited wNowLate "B" 5 150 5
      wStateMod2).newTrades.map (·.quantity) = [5] ∧
    (placeOrderV2 wColUnlimited wNowLate "B" .BUY 150 5 wContractStart
      wContractEnd wStateMod2).result
      = .failure 451 "Contract is not tradeable anymore" ∧
    resKindOf (modifyOrderV2 wColUnlimited wNowEarly "B" 5 150 5
      wStateMod2).result = .inr 5 ∧
    (placeOrderV2 wColUnlimited wNowEarly "B" .BUY 150 5 wContractStart
      wContractEnd wStateMod2).result
      = .failure 425 "Contract is not yet tradeable" := by
  exact ⟨fun now1 now2 => modifyOrderV2_time_indep col now1 now2 u oid p q s,
    by decide, by decide, by decide, by decide, by decide⟩

/-- C8: counterexample. The legacy `POST /trades` take endpoint performs
no buyer-versus-seller check: user A taking their own resting order
records a trade whose buyer and seller are both A. -/
theorem C8_counterexample :
    ((takeOrderLegacy "A" 0 wNow wStateLegacy).newTrades.map
      (fun t => (t.buyerId, t.sellerId))) = [("A", "A")] := by
  decide

/-- C8 (amended): the matching engine itself never records a trade with
buyer equal to seller — on submission, on modification of a well-formed
book, and throughout a bulk batch — but the guarantee does not extend to
the legacy take endpoint. -/
theorem C8_no_self_trade (tokens : String → Option String)
    (col : String → Option Int) (now : Int) (username : String)
    (side : Side) (price quantity ds de : Int) (orderId : Nat)
    (newPrice newQty : Int) (contracts : List BulkContract)
    (s : MarketState) (hWF : WFState s) :
    (∀ t ∈ (placeOrderV2 col now username side price quantity ds de
      s).newTrades, t.buyerId ≠ t.sellerId) ∧
    (∀ t ∈ (modifyOrderV2 col now username orderId newPrice newQty
      s).newTrades, t.buyerId ≠ t.sellerId) ∧
    (∀ t ∈ (processBulk tokens col now contracts s).broadcasts,
      t.buyerId ≠ t.sellerId) := by
  refine ⟨fun t ht => place_no_self_trade col now username side price
    quantity ds de s t ht,
    fun t ht => modify_no_self_trade col now username orderId newPrice
      newQty s hWF t ht, ?_⟩
  intro t ht
  unfold processBulk at ht
  split at ht
  · simp at ht
  · rename_i s1 buf1 hrun
    exact runBulkContracts_no_self tokens col now contracts s [] hWF
      (by simp) (s1, buf1) hrun t ht

/-- Witness for the amended C8 at a concrete crossing submission. -/
theorem C8_no_self_trade_witness :
    wTradeC2.buyerId ≠ wTradeC2.sellerId :=
  (C8_no_self_trade (fun _ => none) wColUnlimited wNow "B" .BUY 150 1200
    wContractStart wContractEnd 0 0 0 [] wState1
    ⟨by decide, by decide⟩).1 wTradeC2 (by decide)

/-- C7: counterexample. User A owns BUY order 5 and SELL order 7 at
price 20; 1000 lots of user B rest at price 10 between them.  Modifying
order 5 to price 20, quantity 5 would consume only B's liquidity — the
walk-limited probe (the source's own `placeOrderV2` probe, evaluated on
the modification's candidate list) reports no self-match — yet
`modifyOrderV2` rejects 412, because its check fires on any crossing own
order with no regard to consumption order. -/
theorem C7_counterexample :
    (modifyOrderV2 wColUnlimited wNow "A" 5 20 5 wStateMod).result
        = .failure 412 "Self-match prevented" ∧
    selfMatchScan .BUY 20 "A" 5
      (sortCandidates .BUY (wStateMod.orders.filter
        (fun x => isCandidate .BUY wContractStart wContractEnd x &&
          !(x.orderId == 5)))) = false := by
  decide

/-- C7 (amended): the submission path's self-match probe respects the
actual consumption ordering — it rejects 412 exactly when an own crossing
order would be reached before the simulated remaining is exhausted — but
the modification path rejects 412 on any crossing own candidate,
regardless of the liquidity of others resting in front of it. -/
theorem C7_self_match_walk (col : String → Option Int) (now : Int)
    (username : String) (side : Side) (price quantity ds de : Int)
    (orderId : Nat) (newPrice newQty : Int) (s : MarketState) (o0 : Order) :
    (validateOrderFields price quantity ds de = none →
     checkTradingWindow now ds = none →
     violatesCollateral col { s with orders := s.orders ++ [tmpOrder username side price quantity ds de] } username = false →
     ((placeOrderV2 col now username side price quantity ds de s).result
         = .failure 412 "Self-match prevented" ↔
       ReachesSelf side price username quantity
         (placeCandidates side ds de s))) ∧
    (0 < newQty → findActiveV2Order s orderId = some o0 →
     o0.user = username →
     violatesCollateral col { s with orders := updateFirstById orderId { o0 with price := newPrice, quantity := newQty } s.orders } username = false →
     ((modifyOrderV2 col now username orderId newPrice newQty s).result
         = .failure 412 "Self-match prevented" ↔
       ∃ m ∈ sortCandidates o0.side (s.orders.filter
           (fun x => isCandidate o0.side o0.deliveryStart o0.deliveryEnd x &&
             !(x.orderId == orderId))),
         (if o0.side = Side.BUY then m.price ≤ newPrice
          else newPrice ≤ m.price) ∧ m.user = username)) := by
  constructor
  · intro hval hwin hnoviol
    rw [placeOrderV2_412_iff col now username side price quantity ds de s
      hval hwin hnoviol]
    refine selfMatchScan_iff side price username
      (placeCandidates side ds de s) ?_ quantity
    intro o ho
    rw [placeCandidates, mem_sortCandidates, List.mem_filter] at ho
    exact ((isCandidate_iff side ds de o).1 ho.2).2.2.2.2.2
  · intro hq hfind huser hnoviol
    rw [modifyOrderV2_412_iff col now username orderId newPrice newQty s o0
      hq hfind huser hnoviol]
    exact modifySelfMatch_iff o0.side newPrice username _

/-- Witness for the amended C7 at the concrete modification scenario:
the crossing own sell order 7 triggers the rejection. -/
theorem C7_self_match_walk_witness :
    (modifyOrderV2 wColUnlimited wNow "A" 5 20 5 wStateMod).result
      = .failure 412 "Self-match prevented" :=
  ((C7_self_match_walk wColUnlimited wNow "A" .BUY 0 0 0 0 5 20 5 wStateMod
      wBuyA5).2 (by decide) (by decide) (by decide) (by decide)).mpr
    ⟨wSellA20, by decide, by decide, by decide⟩

/-- Witness for C5: user B with collateral limit 0 is rejected 402 on a
large buy. -/
theorem C5_collateral_admission_witness :
    (placeOrderV2 wColB0 wNow "B" .BUY 150 1200 wContractStart wContractEnd
      wState1).result = .failure 402 "Insufficient collateral" :=
  (C5_collateral_admission wColB0 wNow "B" .BUY 150 1200 wContractStart
    wContractEnd 0 0 0 wState1 0).2.1 (by decide) (by decide) (by decide)
    (by decide)

/-- C2: every trade produced by the matching engine, both on submission
and on the re-matching phase of a modification, carries the price of a
resting opposite-side candidate of the book that the incoming (taker)
price crosses: the maker price rule. -/
theorem C2_maker_price (col : String → Option Int) (now : Int)
    (username : String) (side : Side) (price quantity ds de : Int)
    (orderId : Nat) (newPrice newQty : Int) (s : MarketState) :
    (∀ t ∈ (placeOrderV2 col now username side price quantity ds de
        s).newTrades,
      ∃ m, m ∈ s.orders ∧ isCandidate side ds de m = true ∧
        crossesAt side price m ∧ t.price = m.price) ∧
    (∀ t ∈ (modifyOrderV2 col now username orderId newPrice newQty
        s).newTrades,
      ∃ o0, findActiveV2Order s orderId = some o0 ∧
        ∃ m, m ∈ s.orders ∧
          isCandidate o0.side o0.deliveryStart o0.deliveryEnd m = true ∧
          crossesAt o0.side newPrice m ∧ t.price = m.price) := by
  constructor
  · intro t ht
    cases hres : (placeOrderV2 col now username side price quantity ds de
        s).result with
    | failure st msg =>
      rw [(placeOrderV2_failure_elim col now username side price quantity
        ds de s st msg hres).2] at ht
      simp at ht
    | success o fq =>
      obtain ⟨h1, h2, h3, heq⟩ := placeOrderV2_success_elim col now username
        side price quantity ds de s o fq hres
      rw [heq, placeOrderV2Exec_newTrades] at ht
      obtain ⟨f, hf, hp, _⟩ := executeFills_mem side username ds de now _ _ t ht
      obtain ⟨hmem, _, _, hcross⟩ := matchLoop_fills_mem side price quantity
        _ f hf
      rw [placeCandidates, mem_sortCandidates, List.mem_filter] at hmem
      exact ⟨f.1, hmem.1, hmem.2, hcross, hp⟩
  · intro t ht
    cases hres : (modifyOrderV2 col now username orderId newPrice newQty
        s).result with
    | failure st msg =>
      rw [(modifyOrderV2_failure_elim col now username orderId newPrice
        newQty s st msg hres).2] at ht
      simp at ht
    | success o fq =>
      obtain ⟨o0, hfind, huser, hq, hself, heq⟩ := modifyOrderV2_success_elim
        col now username orderId newPrice newQty s o fq hres
      rw [heq, modifyOrderV2Exec_newTrades] at ht
      obtain ⟨f, hf, hp, _⟩ := executeFills_mem _ username _ _ now _ _ t ht
      obtain ⟨hmem, _, _, hcross⟩ := matchLoop_fills_mem _ _ _ _ f hf
      rw [mem_sortCandidates, List.mem_filter] at hmem
      refine ⟨o0, hfind, f.1, ?_, hmem.2, hcross, hp⟩
      rcases mem_updateFirstById hmem.1 with heq1 | hmem1
      · exfalso
        have hside := ((isCandidate_iff _ _ _ _).1 hmem.2).2.2.1
        rw [heq1] at hside
        exact Side.opposite_ne _ hside.symm
      · exact hmem1

/-- Witness for C2: the concrete trade of a crossing submission carries
the resting sell's price. -/
theorem C2_maker_price_witness :
    ∃ m, m ∈ wState1.orders ∧
      isCandidate .BUY wContractStart wContractEnd m = true ∧
      crossesAt .BUY 150 m ∧ wTradeC2.price = m.price :=
  (C2_maker_price wColUnlimited wNow "B" .BUY 150 1200 wContractStart
    wContractEnd 0 0 0 wState1).1 wTradeC2 (by decide)

/-- Witness for the amended C4 at a concrete partially filled submission. -/
theorem C4_place_status_witness :
    (wResidualB.status = .FILLED ↔ (500 : Int) = 1200) ∧
    ((500 : Int) ≠ 1200 → wResidualB.status = .ACTIVE) :=
  C4_place_status wColUnlimited wNow "B" .BUY 150 1200 wContractStart
    wContractEnd wState1 wResidualB 500 (by decide)

end GalacticExchange
